import Mathlib

/-!
Shallow embedding of the synchronization core of the wutheringwaves-cli-manager
repository (`src/core.py`), covering the MD5 integrity cache (`MD5Cache`), the
diff/sync classifier (`WGameManager.sync_files`), the resumable retrying
downloader (`WGameManager._download_file` / `_batch_download`), the staged
update applier (`WGameManager.apply_predownload`) and the variant switch
(`WGameManager.checkout`), together with the static override-file configuration
from `src/config.py`.

Modelling conventions:
* paths are strings relative to the game root (the source prefixes every path
  uniformly with `game_folder` and the cache keys records by the same relative
  path);
* the file system is a function from relative path to an optional file record
  `(mtime, content)`; file size is the content length;
* machine effects (network responses, the external `hpatchz` tool, clock
  values) are supplied as explicit environment arguments;
* hashing is modelled as a total executable digest of the byte list; the
  incremental chunked streaming of `MD5Cache._calculate_md5` is embedded
  faithfully (4 MiB chunks folded into a running digest state).
-/

namespace WW

/-- A file on disk: POSIX modification time and its bytes. -/
structure FileData where
  mtime : Nat
  content : List Nat
  deriving DecidableEq, Repr

/-- `os.path.getsize` / `Path.stat().st_size`. -/
def FileData.size (d : FileData) : Nat := d.content.length

/-- The game folder: map from relative path to file. -/
def FS := String → Option FileData

/-- Point update of the file system (write / create / delete a file). -/
def fsSet (fs : FS) (p : String) (v : Option FileData) : FS :=
  fun q => if q = p then v else fs q

/-- `os.replace(src, dst)` / `shutil.move(src, dst)`: `dst` receives the file
stored at `src` and `src` is removed.  Only invoked by the source when `src`
exists. -/
def osReplace (src dst : String) (fs : FS) : FS :=
  fun q => if q = dst then fs src else if q = src then none else fs q

theorem fsSet_self (fs : FS) (p : String) (v : Option FileData) :
    fsSet fs p v p = v := by simp [fsSet]

theorem fsSet_ne (fs : FS) (p q : String) (v : Option FileData) (h : q ≠ p) :
    fsSet fs p v q = fs q := by simp [fsSet, h]

theorem osReplace_dst (src dst : String) (fs : FS) :
    osReplace src dst fs dst = fs src := by simp [osReplace]

theorem osReplace_src (src dst : String) (fs : FS) (h : src ≠ dst) :
    osReplace src dst fs src = none := by simp [osReplace, h]

theorem osReplace_other (src dst q : String) (fs : FS) (h1 : q ≠ dst) (h2 : q ≠ src) :
    osReplace src dst fs q = fs q := by simp [osReplace, h1, h2]

/-! ### MD5 digest (`MD5Cache._calculate_md5`)

The real code streams the file in `4096 * 1024`-byte chunks into an
incremental `hashlib.md5` state.  The digest itself is modelled by an
executable stand-in accumulator that is a function of the full byte
sequence; the chunked incremental update structure of the source is kept. -/

/-- `f.read(4096 * 1024)` chunk size. -/
def CHUNK_SIZE : Nat := 4096 * 1024

/-- One byte absorbed into the running digest state. -/
def md5Step (acc b : Nat) : Nat := (acc * 131 + b + 7) % (2 ^ 64)

/-- Initial digest state. -/
def MD5_INIT : Nat := 5381

/-- Digest of a full byte sequence. -/
def md5Digest (bs : List Nat) : Nat := bs.foldl md5Step MD5_INIT

/-- Structural worker for `chunks`; `fuel` bounds the number of reads and is
instantiated with the content length (each nonempty read consumes at least one
byte, so the bound is never hit). -/
def chunksGo : Nat → List Nat → List (List Nat)
  | _, [] => []
  | 0, l => [l]
  | fuel + 1, a :: l => ((a :: l).take CHUNK_SIZE) :: chunksGo fuel ((a :: l).drop CHUNK_SIZE)

/-- Split a byte list into consecutive `CHUNK_SIZE` chunks, as produced by
`iter(lambda: f.read(4096 * 1024), b"")`. -/
def chunks (l : List Nat) : List (List Nat) := chunksGo l.length l

theorem chunksGo_flatten : ∀ (fuel : Nat) (l : List Nat), l.length ≤ fuel →
    (chunksGo fuel l).flatten = l
  | fuel, [], _ => by cases fuel <;> rfl
  | 0, a :: l, h => by simp at h
  | fuel + 1, a :: l, h => by
      rw [chunksGo]
      rw [List.flatten_cons, chunksGo_flatten fuel ((a :: l).drop CHUNK_SIZE)
        (by
          simp only [List.length_drop, List.length_cons]
          have : 0 < CHUNK_SIZE := by norm_num [CHUNK_SIZE]
          simp only [List.length_cons] at h
          omega)]
      exact List.take_append_drop _ _

theorem chunks_flatten (l : List Nat) : (chunks l).flatten = l :=
  chunksGo_flatten l.length l le_rfl

/-- `MD5Cache._calculate_md5`: fold the running digest chunk by chunk over the
file bytes, then finalize. -/
def calculateMd5 (content : List Nat) : Nat :=
  (chunks content).foldl (fun h c => c.foldl md5Step h) MD5_INIT

/-- The chunked streaming computes exactly the digest of the whole byte
sequence. -/
theorem calculateMd5_eq_digest (content : List Nat) :
    calculateMd5 content = md5Digest content := by
  conv_rhs => rw [md5Digest, ← chunks_flatten content]
  rw [List.foldl_flatten]
  rfl

/-! ### Integrity cache (`MD5Cache`)

Records are keyed by relative path.  `_updated` tracks whether any record
changed during the session (`save` writes back only in that case). -/

/-- A cache record: stored modification time and hash (`{"mtime": .., "md5": ..}`). -/
structure CacheRec where
  mtime : Nat
  md5 : Nat
  deriving DecidableEq, Repr

/-- In-memory state of `MD5Cache`: the record map plus the `_updated` flag. -/
structure CacheState where
  records : List (String × CacheRec)
  updated : Bool
  deriving DecidableEq, Repr

/-- `rel_path in self.cache` / `self.cache[rel_path]`. -/
def cacheLookup (c : CacheState) (p : String) : Option CacheRec :=
  (c.records.find? (fun x => x.1 == p)).map Prod.snd

/-- `self.cache[rel_path] = {...}` followed by `self._updated = True`. -/
def cacheInsert (c : CacheState) (p : String) (r : CacheRec) : CacheState :=
  { records := (p, r) :: c.records.filter (fun x => x.1 != p), updated := true }

/-- `MD5Cache.clear`: delete the record if present, marking the cache updated
only when a record was actually removed. -/
def cacheClear (c : CacheState) (p : String) : CacheState :=
  if (c.records.find? (fun x => x.1 == p)).isSome then
    { records := c.records.filter (fun x => x.1 != p), updated := true }
  else c

theorem find?_filter_ne {β : Type} (p q : String) (h : q ≠ p) :
    ∀ l : List (String × β),
      (l.filter (fun x => x.1 != p)).find? (fun x => x.1 == q) =
        l.find? (fun x => x.1 == q)
  | [] => rfl
  | a :: l => by
      by_cases hap : a.1 = p
      · have h2 : (a.1 == q) = false := by
          simp only [beq_eq_false_iff_ne, ne_eq, hap]
          exact fun e => h e.symm
        rw [List.filter_cons, if_neg (by simp [hap]), List.find?_cons, h2]
        exact find?_filter_ne p q h l
      · rw [List.filter_cons, if_pos (by simp [hap]), List.find?_cons, List.find?_cons]
        cases hq : (a.1 == q) with
        | true => rfl
        | false => exact find?_filter_ne p q h l

theorem cacheLookup_insert (c : CacheState) (p q : String) (r : CacheRec) :
    cacheLookup (cacheInsert c p r) q = if q = p then some r else cacheLookup c q := by
  by_cases h : q = p
  · simp [cacheLookup, cacheInsert, h, List.find?_cons]
  · simp only [cacheLookup, cacheInsert, h, if_false]
    rw [List.find?_cons_of_neg _ (by simp; exact fun e => h e.symm)]
    rw [find?_filter_ne p q h]

theorem cacheLookup_clear (c : CacheState) (p q : String) (h : q ≠ p) :
    cacheLookup (cacheClear c p) q = cacheLookup c q := by
  unfold cacheClear
  by_cases hf : (c.records.find? (fun x => x.1 == p)).isSome
  · simp only [hf, if_true, cacheLookup]
    rw [find?_filter_ne p q h]
  · simp [hf]

theorem cacheLookup_clear_self (c : CacheState) (p : String) :
    cacheLookup (cacheClear c p) p = none := by
  unfold cacheClear cacheLookup
  by_cases hf : (c.records.find? (fun x => x.1 == p)).isSome
  · simp only [hf, if_true]
    have hn : (c.records.filter (fun x => x.1 != p)).find? (fun x => x.1 == p) = none := by
      rw [List.find?_eq_none]
      intro x hx
      have := List.of_mem_filter hx
      simpa using this
    simp [hn]
  · simp only [hf, if_false]
    rw [Option.not_isSome_iff_eq_none] at hf
    simp [cacheLookup, hf]

/-! ### `MD5Cache.get` -/

/-- Result of `MD5Cache.get`: the returned hash, the cache state afterwards,
and whether `_calculate_md5` streamed the file's bytes. -/
structure GetResult where
  hash : Option Nat
  cache : CacheState
  didHash : Bool
  deriving DecidableEq, Repr

/-- `MD5Cache.get(file_path)`:
* nonexistent file: return `None`, touch nothing;
* record present with matching mtime: return the stored hash, no byte read;
* otherwise stream the file (`_calculate_md5`), store the `(mtime, md5)`
  record and return the fresh hash.  (The I/O-failure branch in which
  `_calculate_md5` returns `None` is not modelled: hashing of an existing
  file is total here.) -/
def md5Get (fs : FS) (c : CacheState) (p : String) : GetResult :=
  match fs p with
  | none => ⟨none, c, false⟩
  | some fd =>
    match cacheLookup c p with
    | some r =>
        if r.mtime = fd.mtime then ⟨some r.md5, c, false⟩
        else
          let h := calculateMd5 fd.content
          ⟨some h, cacheInsert c p ⟨fd.mtime, h⟩, true⟩
    | none =>
        let h := calculateMd5 fd.content
        ⟨some h, cacheInsert c p ⟨fd.mtime, h⟩, true⟩

/-- The hash `get` returns depends on the cache only through the record stored
at the queried path. -/
theorem md5Get_hash_congr (fs : FS) (c1 c2 : CacheState) (p : String)
    (h : cacheLookup c1 p = cacheLookup c2 p) :
    (md5Get fs c1 p).hash = (md5Get fs c2 p).hash := by
  unfold md5Get
  cases fs p with
  | none => rfl
  | some fd =>
      simp only [h]
      cases cacheLookup c2 p with
      | none => rfl
      | some r => by_cases hm : r.mtime = fd.mtime <;> simp [hm]

/-- `get` changes no record other than the queried path's. -/
theorem md5Get_cache_other (fs : FS) (c : CacheState) (p q : String) (h : q ≠ p) :
    cacheLookup (md5Get fs c p).cache q = cacheLookup c q := by
  unfold md5Get
  cases fs p with
  | none => rfl
  | some fd =>
      cases hl : cacheLookup c p with
      | none => simp [cacheLookup_insert, h]
      | some r =>
          by_cases hm : r.mtime = fd.mtime
          · simp [hm]
          · simp [hm, cacheLookup_insert, h]

/-! ### Diff / sync orchestrator (`WGameManager.sync_files`) -/

/-- One entry of the remote index manifest (`item` in `res_list`). -/
structure ManifestEntry where
  dest : String
  md5 : Nat
  size : Nat
  deriving DecidableEq, Repr

/-- A download task emitted by `sync_files` (url is the CDN base joined with
the resource base and destination; `quote` percent-encoding is not modelled). -/
structure SyncTask where
  url : String
  dest : String
  size : Nat
  deriving DecidableEq, Repr

/-- Per-entry classification of `sync_files`: the `need_download` flag and the
cache state after a possible forced `md5_cache.get`. -/
def classifyOne (force : Bool) (fs : FS) (c : CacheState) (e : ManifestEntry) :
    Bool × CacheState :=
  match fs e.dest with
  | none => (true, c)
  | some fd =>
      if force then
        let g := md5Get fs c e.dest
        (g.hash ≠ some e.md5, g.cache)
      else
        (fd.size ≠ e.size, c)

/-- Observable outcome of one `sync_files` call.  `didBatchDownload`,
`cacheSaved` and `markerWritten` record whether `_batch_download`,
`md5_cache.save` (which writes only when `_updated`) and
`_update_local_config` performed their writes. -/
structure SyncResult where
  tasks : List SyncTask
  cache : CacheState
  didBatchDownload : Bool
  cacheSaved : Bool
  markerWritten : Bool
  deriving Repr

/-- The classification loop of `sync_files`, threading the cache. -/
def syncLoop (force : Bool) (resBase : String) (fs : FS) :
    List ManifestEntry → List SyncTask → CacheState → List SyncTask × CacheState
  | [], acc, c => (acc, c)
  | e :: rest, acc, c =>
      let (need, c') := classifyOne force fs c e
      syncLoop force resBase fs rest
        (if need then acc ++ [⟨resBase ++ "/" ++ e.dest, e.dest, e.size⟩] else acc) c'

/-- `WGameManager.sync_files(force_check_md5)`.  When tasks exist the batch
download runs, the cache file is saved (only if updated) and the local version
marker is rewritten; when no task is emitted nothing happens. -/
def syncFiles (force : Bool) (manifest : List ManifestEntry) (resBase : String)
    (fs : FS) (c : CacheState) : SyncResult :=
  let r := syncLoop force resBase fs manifest [] c
  if r.1 = [] then
    { tasks := r.1, cache := r.2, didBatchDownload := false,
      cacheSaved := false, markerWritten := false }
  else
    { tasks := r.1, cache := r.2, didBatchDownload := true,
      cacheSaved := r.2.updated, markerWritten := true }

theorem classifyOne_absent (force : Bool) (fs : FS) (c : CacheState) (e : ManifestEntry)
    (h : fs e.dest = none) : classifyOne force fs c e = (true, c) := by
  unfold classifyOne; rw [h]

theorem classifyOne_fast (fs : FS) (c : CacheState) (e : ManifestEntry) (fd : FileData)
    (h : fs e.dest = some fd) :
    classifyOne false fs c e = (decide (fd.size ≠ e.size), c) := by
  unfold classifyOne; rw [h]; rfl

theorem classifyOne_full (fs : FS) (c : CacheState) (e : ManifestEntry) (fd : FileData)
    (h : fs e.dest = some fd) :
    classifyOne true fs c e =
      (decide ((md5Get fs c e.dest).hash ≠ some e.md5), (md5Get fs c e.dest).cache) := by
  unfold classifyOne; rw [h]; rfl

theorem syncLoop_cons (force : Bool) (resBase : String) (fs : FS) (e : ManifestEntry)
    (rest : List ManifestEntry) (acc : List SyncTask) (c : CacheState) :
    syncLoop force resBase fs (e :: rest) acc c =
      syncLoop force resBase fs rest
        (if (classifyOne force fs c e).1
          then acc ++ [⟨resBase ++ "/" ++ e.dest, e.dest, e.size⟩] else acc)
        (classifyOne force fs c e).2 := by
  conv_lhs => unfold syncLoop

theorem syncLoop_acc (force : Bool) (resBase : String) (fs : FS) :
    ∀ (m : List ManifestEntry) (acc : List SyncTask) (c : CacheState),
      (syncLoop force resBase fs m acc c).1 =
        acc ++ (syncLoop force resBase fs m [] c).1
  | [], acc, c => by simp [syncLoop]
  | e :: rest, acc, c => by
      rw [syncLoop_cons, syncLoop_cons]
      cases hn : (classifyOne force fs c e).1 with
      | false =>
          simp only [Bool.false_eq_true, if_false]
          exact syncLoop_acc force resBase fs rest acc _
      | true =>
          simp only [if_true, List.nil_append]
          rw [syncLoop_acc force resBase fs rest (acc ++ [_]),
            syncLoop_acc force resBase fs rest [_]]
          simp

/-- The cache state threaded by the classification loop changes no record at a
path that is not one of the processed destinations. -/
theorem syncLoop_cache_other (force : Bool) (resBase : String) (fs : FS) :
    ∀ (m : List ManifestEntry) (acc : List SyncTask) (c : CacheState) (q : String),
      (∀ e ∈ m, q ≠ e.dest) →
      cacheLookup (syncLoop force resBase fs m acc c).2 q = cacheLookup c q
  | [], _, _, _, _ => rfl
  | e :: rest, acc, c, q, h => by
      rw [syncLoop_cons]
      rw [syncLoop_cache_other force resBase fs rest _ _ q
        (fun x hx => h x (List.mem_cons_of_mem _ hx))]
      have hq : q ≠ e.dest := h e (List.mem_cons_self _ _)
      cases hfs : fs e.dest with
      | none => rw [classifyOne_absent force fs c e hfs]
      | some fd =>
          cases force with
          | false => rw [classifyOne_fast fs c e fd hfs]
          | true =>
              rw [classifyOne_full fs c e fd hfs]
              exact md5Get_cache_other fs c e.dest q hq

/-- Every task the fast path (`force = false`) emits names a manifest entry
whose destination is absent or size-mismatched; the hash is never consulted. -/
theorem syncLoop_false_sound (resBase : String) (fs : FS) :
    ∀ (m : List ManifestEntry) (acc : List SyncTask) (c : CacheState) (t : SyncTask),
      t ∈ (syncLoop false resBase fs m acc c).1 →
      t ∈ acc ∨ ∃ e ∈ m, t.dest = e.dest ∧ t.size = e.size ∧
        (fs e.dest = none ∨ ∃ fd, fs e.dest = some fd ∧ fd.size ≠ e.size)
  | [], acc, c, t => fun h => Or.inl h
  | e :: rest, acc, c, t => by
      intro h
      rw [syncLoop_cons] at h
      cases hfs : fs e.dest with
      | none =>
          rw [classifyOne_absent false fs c e hfs] at h
          simp only [if_true] at h
          rcases syncLoop_false_sound resBase fs rest _ c t h with h1 | ⟨e', he', h2⟩
          · rcases List.mem_append.1 h1 with h2 | h2
            · exact Or.inl h2
            · refine Or.inr ⟨e, List.mem_cons_self _ _, ?_⟩
              simp only [List.mem_singleton] at h2
              subst h2
              exact ⟨rfl, rfl, Or.inl hfs⟩
          · exact Or.inr ⟨e', List.mem_cons_of_mem _ he', h2⟩
      | some fd =>
          rw [classifyOne_fast fs c e fd hfs] at h
          by_cases hsz : fd.size = e.size
          · rw [if_neg (by simp [hsz])] at h
            rcases syncLoop_false_sound resBase fs rest _ c t h with h1 | ⟨e', he', h2⟩
            · exact Or.inl h1
            · exact Or.inr ⟨e', List.mem_cons_of_mem _ he', h2⟩
          · rw [if_pos (by simp [hsz])] at h
            rcases syncLoop_false_sound resBase fs rest _ c t h with h1 | ⟨e', he', h2⟩
            · rcases List.mem_append.1 h1 with h2 | h2
              · exact Or.inl h2
              · refine Or.inr ⟨e, List.mem_cons_self _ _, ?_⟩
                simp only [List.mem_singleton] at h2
                subst h2
                exact ⟨rfl, rfl, Or.inr ⟨fd, hfs, hsz⟩⟩
            · exact Or.inr ⟨e', List.mem_cons_of_mem _ he', h2⟩

/-- The fast path never touches the cache. -/
theorem syncLoop_false_cache (resBase : String) (fs : FS) :
    ∀ (m : List ManifestEntry) (acc : List SyncTask) (c : CacheState),
      (syncLoop false resBase fs m acc c).2 = c
  | [], _, _ => rfl
  | e :: rest, acc, c => by
      rw [syncLoop_cons]
      cases hfs : fs e.dest with
      | none =>
          rw [classifyOne_absent false fs c e hfs]
          exact syncLoop_false_cache resBase fs rest _ c
      | some fd =>
          rw [classifyOne_fast fs c e fd hfs]
          exact syncLoop_false_cache resBase fs rest _ c

/-! ### Download engine (`WGameManager._download_file`, `_batch_download`)

The network is an explicit environment: for each attempt index it yields either
a fully streamed response body or an exception.  An exception may occur before
the temporary file is opened (`errNone`-style: `written = none`) or mid-stream
after some bytes were appended. -/

/-- What the network does on one attempt. -/
inductive NetOutcome where
  /-- The response body streamed completely; these bytes were appended. -/
  | ok (bytes : List Nat)
  /-- An exception was raised (connection, non-2xx status, read error).
  `written = none`: the failure happened before the temporary file was opened;
  `written = some bs`: `bs` bytes were appended before the failure. -/
  | err (written : Option (List Nat))
  deriving DecidableEq, Repr

/-- Trace of one loop iteration of `_download_file`. -/
inductive AttemptEvent where
  /-- `resume_byte == expected_size`: completed without any request. -/
  | noRequest
  /-- An HTTP request was issued with the given `Range` start (if any) and the
  network behaved as recorded. -/
  | request (rangeStart : Option Nat) (out : NetOutcome)
  deriving DecidableEq, Repr

/-- Result of `_download_file`'s retry loop on the temporary file. -/
structure DRes where
  success : Bool
  temp : Option (List Nat)
  events : List AttemptEvent
  sleeps : List (Nat × Nat)
  deriving DecidableEq, Repr

/-- `temp_file.stat().st_size` with 0 for a missing file (`resume_byte`). -/
def tempLen : Option (List Nat) → Nat
  | none => 0
  | some l => l.length

/-- File contents after the body `bytes` is written: mode `"ab"` appends when
`resume_byte > 0`, mode `"wb"` truncates otherwise. -/
def writeBody (temp : Option (List Nat)) (r : Nat) (bytes : List Nat) : List Nat :=
  if 0 < r then temp.getD [] ++ bytes else bytes

/-- `for attempt in range(retries)` of `_download_file`.  `fuel` is the number
of attempts left (`retries - attempt`); `fuel = 0` after the loop exhausts
means `success = False`.  An exception on the last attempt returns `False`
immediately; on an earlier attempt the code sleeps `1 + attempt` seconds.  A
fully streamed body of the wrong size falls through (`else: pass`) and is
retried immediately with no sleep. -/
def dloop (env : Nat → NetOutcome) (expected : Nat) :
    Nat → Nat → Option (List Nat) → List AttemptEvent → List (Nat × Nat) → DRes
  | 0, _, temp, evs, slps => ⟨false, temp, evs.reverse, slps.reverse⟩
  | fuel + 1, attempt, temp, evs, slps =>
      let r := tempLen temp
      if r = expected then
        ⟨true, temp, (AttemptEvent.noRequest :: evs).reverse, slps.reverse⟩
      else
        let range : Option Nat := if 0 < r then some r else none
        match env attempt with
        | .ok bytes =>
            let nt := writeBody temp r bytes
            let evs' := AttemptEvent.request range (.ok bytes) :: evs
            if nt.length = expected then ⟨true, some nt, evs'.reverse, slps.reverse⟩
            else dloop env expected fuel (attempt + 1) (some nt) evs' slps
        | .err written =>
            let nt := match written with
              | none => temp
              | some bs => some (writeBody temp r bs)
            let evs' := AttemptEvent.request range (.err written) :: evs
            if fuel = 0 then ⟨false, nt, evs'.reverse, slps.reverse⟩
            else dloop env expected fuel (attempt + 1) nt evs'
              ((attempt, attempt + 1) :: slps)

/-- `retries = 3` in `_download_file`. -/
def RETRIES : Nat := 3

/-- The retry loop of `_download_file` on the temporary file contents. -/
def downloadOne (env : Nat → NetOutcome) (expected : Nat)
    (tempInit : Option (List Nat)) : DRes :=
  dloop env expected RETRIES 0 tempInit [] []

/-- `WGameManager._download_file(url, dest, expected_size)` acting on the file
system and the integrity cache.  `mtimeNew` is the modification time the OS
assigns to files written during the call (temporary-file mtime is not tracked
precisely).  On success the temporary file is renamed over `dest`
(`shutil.move`) and the destination's cache record is cleared. -/
def downloadFile (env : Nat → NetOutcome) (fs : FS) (c : CacheState)
    (dest : String) (expected : Nat) (mtimeNew : Nat) : FS × CacheState × DRes :=
  let tp := dest ++ ".temp"
  let res := downloadOne env expected ((fs tp).map (·.content))
  if res.success then
    (fsSet (fsSet fs dest (some ⟨mtimeNew, res.temp.getD []⟩)) tp none,
      cacheClear c dest, res)
  else
    (fsSet fs tp (res.temp.map (fun cnt => ⟨mtimeNew, cnt⟩)), c, res)

/-- One task of `_batch_download`. -/
structure TaskSpec where
  dest : String
  expected : Nat
  tempInit : Option (List Nat)
  deriving DecidableEq, Repr

/-- Per-task outcomes of `_batch_download`: every submitted task is driven to a
terminal state by the pool and its result collected (a failure only logs; it
never cancels sibling futures). -/
def batchResults (envs : Nat → Nat → NetOutcome) (tasks : List TaskSpec) : List DRes :=
  tasks.enum.map (fun ti => downloadOne (envs ti.1) ti.2.expected ti.2.tempInit)

/-! ### Patch application engine (`WGameManager.apply_predownload`) -/

/-- Effect of one `hpatchz` invocation: its exit code and what it left at the
new-file output path (`none` = it wrote nothing, `some d` = it wrote `d`,
possibly a partial output on failure).  Keyed by the staged delta's relative
path. -/
structure PatchOutcome where
  ret : Nat
  written : Option FileData
  deriving DecidableEq, Repr

/-- `s.endswith(t)` on the underlying character lists (kernel-computable
equivalent of `String.endsWith`). -/
def strEndsWith (s t : String) : Bool :=
  decide (t.data.length ≤ s.data.length ∧
    s.data.drop (s.data.length - t.data.length) = t.data)

/-- The Python slice `s[:-n]` (for `n ≤ len(s)`), dropping the last `n`
characters. -/
def strDropRight (s : String) (n : Nat) : String :=
  String.mk (s.data.take (s.data.length - n))

/-- A file found by `rglob` under the `.predownload` staging directory. -/
structure StagedFile where
  rel : String
  data : FileData
  deriving DecidableEq, Repr

/-- The `predownload_version.json` marker (`PredownloadState`). -/
structure PredState where
  version : String
  isPatch : Bool
  deriving DecidableEq, Repr

/-- The state mutated by the staged-entry loop of `apply_predownload`. -/
structure ApplySt where
  fs : FS
  cache : CacheState
  patchCount : Nat
  moveCount : Nat

/-- One iteration of the `for file_path in predownload_root.rglob("*")` loop:
skip the marker file; in patch mode a `.hpatch` entry is merged onto its base
with `hpatchz` (missing base: warn and `continue`; non-zero exit: delete any
partial output and leave the base untouched); otherwise the staged file is
moved over the destination.  Every in-place mutation clears the destination's
cache record. -/
def applyOne (tool : String → PatchOutcome) (isPatch : Bool)
    (st : ApplySt) (f : StagedFile) : ApplySt :=
  if f.rel = "predownload_version.json" then st
  else if isPatch && strEndsWith f.rel ".hpatch" then
    let origin := strDropRight f.rel 7
    let newTmp := origin ++ ".new"
    match st.fs origin with
    | none => st
    | some _ =>
        let out := tool f.rel
        let fs1 := match out.written with
          | none => st.fs
          | some d => fsSet st.fs newTmp (some d)
        if out.ret = 0 then
          { st with
            fs := osReplace newTmp origin fs1,
            cache := cacheClear st.cache origin,
            patchCount := st.patchCount + 1 }
        else
          { st with fs := fsSet fs1 newTmp none }
  else
    { st with
      fs := fsSet st.fs f.rel (some f.data),
      cache := cacheClear st.cache f.rel,
      moveCount := st.moveCount + 1 }

/-- Observable outcome of `apply_predownload`. -/
structure ApplyResult where
  ok : Bool
  stagingDeleted : Bool
  fs : FS
  cache : CacheState
  patchCount : Nat
  moveCount : Nat
  versionUpdated : Bool
  finalSyncForce : Bool
  finalSync : Option SyncResult

/-- `WGameManager.apply_predownload`.  `staging = none` models a missing or
corrupt staging directory / marker (raises `ConfigError`); patch mode without
`hpatchz` raises `ConfigError`.  Otherwise every staged entry is processed,
the staging directory is removed (`shutil.rmtree`), the local version marker
is rewritten when it exists, and a final `sync_files(force_check_md5=False)`
pass runs against the freshly resolved manifest. -/
def applyPredownload (manifest : List ManifestEntry) (resBase : String)
    (tool : String → PatchOutcome) (hasHpatchz : Bool)
    (staging : Option (PredState × List StagedFile)) (markerExists : Bool)
    (fs : FS) (c : CacheState) : ApplyResult :=
  match staging with
  | none =>
      ⟨false, false, fs, c, 0, 0, false, false, none⟩
  | some (info, files) =>
      if info.isPatch && !hasHpatchz then
        ⟨false, false, fs, c, 0, 0, false, false, none⟩
      else
        let st := files.foldl (applyOne tool info.isPatch) ⟨fs, c, 0, 0⟩
        let sync := syncFiles false manifest resBase st.fs st.cache
        ⟨true, true, st.fs, st.cache, st.patchCount, st.moveCount,
          markerExists, false, some sync⟩

/-! ### Variant switch (`WGameManager.checkout`) and the static override-file
configuration from `config.py`. -/

def K1 : String := "Client/Binaries/Win64/kuro_login.dll"
def K2 : String := "Client/Content/Paks/pakchunk1-Kuro-Win64-Shipping.pak"
def B1 : String := "Client/Binaries/Win64/bilibili_sdk.dll"
def B2 : String := "Client/Content/Paks/pakchunk1-Bilibili-Win64-Shipping.pak"

/-- `SERVER_DIFF_FILES` of `config.py`, in dict insertion order. -/
def SERVER_DIFF_FILES : List (String × List String) :=
  [("cn", [K1, K2]), ("bilibili", [B1, B2]), ("global", [K1, K2])]

/-- `f.with_suffix(f.suffix + ".bak")` for single-suffix paths. -/
def BAK (p : String) : String := p ++ ".bak"

/-- The flattened iteration of step 1 of `checkout`
(`for _, files in SERVER_DIFF_FILES.items(): for f_rel in files`). -/
def allDiffFiles : List String := (SERVER_DIFF_FILES.map Prod.snd).flatten

/-- `SERVER_DIFF_FILES.get(target_server, [])`. -/
def diffFilesFor (t : String) : List String :=
  ((SERVER_DIFF_FILES.find? (fun x => x.1 == t)).map Prod.snd).getD []

/-- File system and cache, as mutated by `checkout`'s rename steps. -/
structure ChkSt where
  fs : FS
  cache : CacheState

/-- Step 1 body: deactivate a variant override file if present (rename it to
its `.bak` sibling and invalidate its cache record). -/
def disableOne (st : ChkSt) (f : String) : ChkSt :=
  if (st.fs f).isSome then
    { fs := osReplace f (BAK f) st.fs, cache := cacheClear st.cache f }
  else st

/-- Step 2 body: reactivate a target override file from its backup if one
exists (invalidating the cache record); if neither the backup nor the
canonical file exists, set the `missing` flag. -/
def enableOne (sm : ChkSt × Bool) (f : String) : ChkSt × Bool :=
  if (sm.1.fs (BAK f)).isSome then
    ({ fs := osReplace (BAK f) f sm.1.fs, cache := cacheClear sm.1.cache f }, sm.2)
  else if (sm.1.fs f).isSome then sm
  else (sm.1, true)

/-- The two rename passes of `checkout`, returning the mutated state and the
`missing` flag. -/
def checkoutFiles (target : String) (st : ChkSt) : ChkSt × Bool :=
  let s1 := allDiffFiles.foldl disableOne st
  (diffFilesFor target).foldl enableOne (s1, false)

/-- The launcher configuration, as far as `_update_local_config` reads it. -/
structure LauncherInfo where
  version : String
  deriving DecidableEq, Repr

/-- The `launcherDownloadConfig.json` contents written by
`_update_local_config`. -/
structure LocalMarker where
  version : String
  appId : String
  group : String
  deriving DecidableEq, Repr

/-- Observable outcome of `checkout`. -/
structure CheckoutResult where
  fs : FS
  cache : CacheState
  marker : Option LocalMarker
  serverType : String
  missing : Bool
  syncTriggered : Bool
  finalSync : Option SyncResult

/-- `WGameManager.checkout(target_server, force_sync)`.

`launcherInfo` is `self._launcher_info` at call time; `_update_local_config`
writes the marker only when it is already populated (`if self._launcher_info:`)
and `cfgAppId` is `self.config["appId"]` — the config chosen at construction
time, which `checkout` does not update.  The final
`sync_files(force_check_md5=True)` runs exactly when a target override file
was missing or the caller forced it (download effects of that sync on the
file system are not modelled). -/
def checkout (manifest : List ManifestEntry) (resBase : String)
    (launcherInfo : Option LauncherInfo) (cfgAppId : String)
    (fs : FS) (c : CacheState) (marker : Option LocalMarker)
    (target : String) (forceSync : Bool) : CheckoutResult :=
  let r := checkoutFiles target ⟨fs, c⟩
  let marker' := match launcherInfo with
    | some i => some ⟨i.version, cfgAppId, "default"⟩
    | none => marker
  if r.2 || forceSync then
    let sr := syncFiles true manifest resBase r.1.fs r.1.cache
    ⟨r.1.fs, sr.cache, marker', target, r.2, true, some sr⟩
  else
    ⟨r.1.fs, r.1.cache, marker', target, r.2, false, none⟩

/-! ### Claims -/

/-- **C8.** Integrity Cache `get`: for a nonexistent file it returns absent and
creates no record; if a stored record's modification time equals the file's
current modification time it returns the stored hash without reading the
file's bytes; otherwise it computes the hash by streaming the file in
fixed-size chunks (a digest of the full byte sequence), stores the new
`(mtime, hash)` record, and returns the new hash. -/
theorem C8_md5Get_spec (fs : FS) (c : CacheState) (p : String) :
    (fs p = none → md5Get fs c p = ⟨none, c, false⟩) ∧
    (∀ fd r, fs p = some fd → cacheLookup c p = some r → r.mtime = fd.mtime →
      md5Get fs c p = ⟨some r.md5, c, false⟩) ∧
    (∀ fd, fs p = some fd →
      (∀ r, cacheLookup c p = some r → r.mtime ≠ fd.mtime) →
      md5Get fs c p = ⟨some (calculateMd5 fd.content),
          cacheInsert c p ⟨fd.mtime, calculateMd5 fd.content⟩, true⟩ ∧
        cacheLookup (md5Get fs c p).cache p =
          some ⟨fd.mtime, calculateMd5 fd.content⟩ ∧
        calculateMd5 fd.content = md5Digest fd.content) := by
  refine ⟨fun h => by simp [md5Get, h], fun fd r hfs hl hm => ?_, fun fd hfs hne => ?_⟩
  · simp [md5Get, hfs, hl, hm]
  · have heq : md5Get fs c p = ⟨some (calculateMd5 fd.content),
        cacheInsert c p ⟨fd.mtime, calculateMd5 fd.content⟩, true⟩ := by
      cases hl : cacheLookup c p with
      | none => simp [md5Get, hfs, hl]
      | some r => simp [md5Get, hfs, hl, hne r hl]
    refine ⟨heq, ?_, calculateMd5_eq_digest fd.content⟩
    rw [heq]
    simp [cacheLookup_insert]

/-- Concrete instantiation of `C8_md5Get_spec` (existing file, no prior
record: the hash is computed, stored and returned). -/
theorem C8_md5Get_spec_witness :
    (fsSet (fun _ => none) "data/a.bin" (some ⟨7, [1, 2, 3]⟩)) "data/a.bin" =
        some ⟨7, [1, 2, 3]⟩ ∧
      md5Get (fsSet (fun _ => none) "data/a.bin" (some ⟨7, [1, 2, 3]⟩))
          ⟨[], false⟩ "data/a.bin" =
        ⟨some (calculateMd5 [1, 2, 3]),
          cacheInsert ⟨[], false⟩ "data/a.bin" ⟨7, calculateMd5 [1, 2, 3]⟩, true⟩ :=
  ⟨by decide,
    ((C8_md5Get_spec (fsSet (fun _ => none) "data/a.bin" (some ⟨7, [1, 2, 3]⟩))
        ⟨[], false⟩ "data/a.bin").2.2 ⟨7, [1, 2, 3]⟩ (by decide)
      (fun r hr => by simp [cacheLookup] at hr)).1⟩

/-- **C10.** If `sync_files` classifies every manifest entry as up-to-date (no
tasks emitted), it performs no download and writes neither the
integrity-cache file nor the local version marker — even when forced
verification computed new hashes into the in-memory cache during that run
(the in-memory `updated` flag may be set), those records are not persisted. -/
theorem C10_sync_no_tasks_no_writes (force : Bool) (manifest : List ManifestEntry)
    (resBase : String) (fs : FS) (c : CacheState)
    (h : (syncFiles force manifest resBase fs c).tasks = []) :
    (syncFiles force manifest resBase fs c).didBatchDownload = false ∧
      (syncFiles force manifest resBase fs c).cacheSaved = false ∧
      (syncFiles force manifest resBase fs c).markerWritten = false := by
  simp only [syncFiles] at h ⊢
  cases htasks : (syncLoop force resBase fs manifest [] c).1 with
  | nil => simp [htasks]
  | cons t ts =>
      rw [htasks] at h
      simp at h

/-- Concrete instantiation of `C10_sync_no_tasks_no_writes`: a forced
verification run that hashes one up-to-date file (setting the in-memory
`updated` flag) emits no task and performs none of the three writes. -/
theorem C10_sync_no_tasks_no_writes_witness :
    (syncFiles true [⟨"data/a.bin", calculateMd5 [1, 2, 3], 3⟩] "rb"
        (fsSet (fun _ => none) "data/a.bin" (some ⟨7, [1, 2, 3]⟩)) ⟨[], false⟩).tasks = [] ∧
      (syncFiles true [⟨"data/a.bin", calculateMd5 [1, 2, 3], 3⟩] "rb"
        (fsSet (fun _ => none) "data/a.bin" (some ⟨7, [1, 2, 3]⟩)) ⟨[], false⟩).cache.updated = true ∧
      (syncFiles true [⟨"data/a.bin", calculateMd5 [1, 2, 3], 3⟩] "rb"
          (fsSet (fun _ => none) "data/a.bin" (some ⟨7, [1, 2, 3]⟩)) ⟨[], false⟩).didBatchDownload = false ∧
      (syncFiles true [⟨"data/a.bin", calculateMd5 [1, 2, 3], 3⟩] "rb"
          (fsSet (fun _ => none) "data/a.bin" (some ⟨7, [1, 2, 3]⟩)) ⟨[], false⟩).cacheSaved = false ∧
      (syncFiles true [⟨"data/a.bin", calculateMd5 [1, 2, 3], 3⟩] "rb"
          (fsSet (fun _ => none) "data/a.bin" (some ⟨7, [1, 2, 3]⟩)) ⟨[], false⟩).markerWritten = false := by
  have h := C10_sync_no_tasks_no_writes true [⟨"data/a.bin", calculateMd5 [1, 2, 3], 3⟩] "rb"
    (fsSet (fun _ => none) "data/a.bin" (some ⟨7, [1, 2, 3]⟩)) ⟨[], false⟩ (by decide)
  exact ⟨by decide, by decide, h.1, h.2.1, h.2.2⟩

theorem classifyOne_cache_congr (force : Bool) (fs : FS) (c1 c2 : CacheState)
    (e : ManifestEntry) (h : cacheLookup c1 e.dest = cacheLookup c2 e.dest) :
    (classifyOne force fs c1 e).1 = (classifyOne force fs c2 e).1 := by
  cases hfs : fs e.dest with
  | none => rw [classifyOne_absent force fs c1 e hfs, classifyOne_absent force fs c2 e hfs]
  | some fd =>
      cases force with
      | false => rw [classifyOne_fast fs c1 e fd hfs, classifyOne_fast fs c2 e fd hfs]
      | true =>
          rw [classifyOne_full fs c1 e fd hfs, classifyOne_full fs c2 e fd hfs]
          simp only [md5Get_hash_congr fs c1 c2 e.dest h]

/-- Every emitted task's destination names some processed manifest entry. -/
theorem syncLoop_dest_mem (force : Bool) (resBase : String) (fs : FS) :
    ∀ (m : List ManifestEntry) (acc : List SyncTask) (c : CacheState) (t : SyncTask),
      t ∈ (syncLoop force resBase fs m acc c).1 →
      t ∈ acc ∨ t.dest ∈ m.map (·.dest)
  | [], acc, c, t => fun h => Or.inl h
  | e :: rest, acc, c, t => by
      intro h
      rw [syncLoop_cons] at h
      rcases syncLoop_dest_mem force resBase fs rest _ _ t h with h1 | h1
      · by_cases hn : (classifyOne force fs c e).1
        · rw [if_pos hn] at h1
          rcases List.mem_append.1 h1 with h2 | h2
          · exact Or.inl h2
          · simp only [List.mem_singleton] at h2
            subst h2
            exact Or.inr (by simp)
        · rw [if_neg hn] at h1
          exact Or.inl h1
      · exact Or.inr (by simp [h1])

/-- A manifest entry with a destination distinct from all other entries' gets
a task emitted iff its classification (against the initial cache state) says
it needs downloading. -/
theorem syncLoop_mem_iff (force : Bool) (resBase : String) (fs : FS) :
    ∀ (m : List ManifestEntry) (c : CacheState) (e : ManifestEntry),
      (m.map (·.dest)).Nodup → e ∈ m →
      ((∃ t ∈ (syncLoop force resBase fs m [] c).1, t.dest = e.dest) ↔
        (classifyOne force fs c e).1 = true)
  | [], c, e => by intro _ he; exact absurd he (by simp)
  | e' :: rest, c, e => by
      intro hnd he
      rw [syncLoop_cons]
      have hnd' : (rest.map (·.dest)).Nodup := (List.nodup_cons.1 hnd).2
      have hd' : e'.dest ∉ rest.map (·.dest) := (List.nodup_cons.1 hnd).1
      rcases List.mem_cons.1 he with rfl | he'
      · -- the head entry itself
        rw [syncLoop_acc]
        constructor
        · rintro ⟨t, ht, hdest⟩
          rcases List.mem_append.1 ht with h1 | h1
          · by_cases hn : (classifyOne force fs c e).1
            · exact hn
            · rw [if_neg hn] at h1
              exact absurd h1 (by simp)
          · rcases syncLoop_dest_mem force resBase fs rest [] _ t h1 with h2 | h2
            · exact absurd h2 (by simp)
            · exact absurd (hdest ▸ h2) hd'
        · intro hn
          refine ⟨⟨resBase ++ "/" ++ e.dest, e.dest, e.size⟩, ?_, rfl⟩
          apply List.mem_append.2 (Or.inl ?_)
          rw [if_pos hn]
          simp
      · -- the entry sits in the tail
        have hde : e.dest ∈ rest.map (·.dest) := by
          simp only [List.mem_map]
          exact ⟨e, he', rfl⟩
        have hne : e.dest ≠ e'.dest := fun hcontra => hd' (hcontra ▸ hde)
        rw [syncLoop_acc]
        have hcongr : (classifyOne force fs (classifyOne force fs c e').2 e).1 =
            (classifyOne force fs c e).1 := by
          apply classifyOne_cache_congr
          cases hfs : fs e'.dest with
          | none => rw [classifyOne_absent force fs c e' hfs]
          | some fd =>
              cases force with
              | false => rw [classifyOne_fast fs c e' fd hfs]
              | true =>
                  rw [classifyOne_full fs c e' fd hfs]
                  exact md5Get_cache_other fs c e'.dest e.dest hne
        constructor
        · rintro ⟨t, ht, hdest⟩
          rcases List.mem_append.1 ht with h1 | h1
          · by_cases hn : (classifyOne force fs c e').1
            · rw [if_pos hn] at h1
              simp only [List.nil_append, List.mem_singleton] at h1
              subst h1
              exact absurd hdest.symm hne
            · rw [if_neg hn] at h1
              exact absurd h1 (by simp)
          · rw [← hcongr]
            exact (syncLoop_mem_iff force resBase fs rest _ e hnd' he').1 ⟨t, h1, hdest⟩
        · intro hn
          rw [← hcongr] at hn
          rcases (syncLoop_mem_iff force resBase fs rest _ e hnd' he').2 hn with ⟨t, ht, hdest⟩
          exact ⟨t, List.mem_append.2 (Or.inr ht), hdest⟩

/-- **C2.** For every manifest entry (destinations pairwise distinct),
`sync_files` without forced verification emits a download task for it iff the
destination is absent or its on-disk size differs from the manifest's
declared size; with forced verification it emits a task iff the destination
is absent or the Integrity Cache's hash for it (`md5_cache.get`) differs from
the manifest's declared hash. -/
theorem C2_sync_classification (force : Bool) (manifest : List ManifestEntry)
    (resBase : String) (fs : FS) (c : CacheState) (e : ManifestEntry)
    (hnd : (manifest.map (·.dest)).Nodup) (he : e ∈ manifest) :
    (force = false →
      ((∃ t ∈ (syncFiles force manifest resBase fs c).tasks, t.dest = e.dest) ↔
        (fs e.dest = none ∨ ∃ fd, fs e.dest = some fd ∧ fd.size ≠ e.size))) ∧
    (force = true →
      ((∃ t ∈ (syncFiles force manifest resBase fs c).tasks, t.dest = e.dest) ↔
        (fs e.dest = none ∨ (md5Get fs c e.dest).hash ≠ some e.md5))) := by
  have htasks : (syncFiles force manifest resBase fs c).tasks =
      (syncLoop force resBase fs manifest [] c).1 := by
    simp only [syncFiles]
    by_cases h : (syncLoop force resBase fs manifest [] c).1 = [] <;> simp [h]
  rw [htasks]
  have hiff := syncLoop_mem_iff force resBase fs manifest c e hnd he
  constructor
  · rintro rfl
    rw [hiff]
    cases hfs : fs e.dest with
    | none => rw [classifyOne_absent false fs c e hfs]; simp [hfs]
    | some fd =>
        rw [classifyOne_fast fs c e fd hfs]
        simp only [hfs]
        constructor
        · intro h
          exact Or.inr ⟨fd, rfl, by simpa using h⟩
        · rintro (h | ⟨fd', hfd', hsz⟩)
          · exact absurd h (by simp)
          · simp only [Option.some.injEq] at hfd'
            subst hfd'
            simpa using hsz
  · rintro rfl
    rw [hiff]
    cases hfs : fs e.dest with
    | none => rw [classifyOne_absent true fs c e hfs]; simp [hfs]
    | some fd =>
        rw [classifyOne_full fs c e fd hfs]
        simp only [hfs]
        constructor
        · intro h
          exact Or.inr (by simpa using h)
        · rintro (h | h)
          · exact absurd h (by simp)
          · simpa using h

/-- Concrete instantiation of `C2_sync_classification`: one absent entry on
the fast path is emitted as a task. -/
theorem C2_sync_classification_witness :
    (∃ t ∈ (syncFiles false [⟨"data/a.bin", 5, 3⟩] "rb" (fun _ => none)
        ⟨[], false⟩).tasks, t.dest = "data/a.bin") :=
  ((C2_sync_classification false [⟨"data/a.bin", 5, 3⟩] "rb" (fun _ => none)
      ⟨[], false⟩ ⟨"data/a.bin", 5, 3⟩ (by simp) (by simp)).1 rfl).2
    (Or.inl rfl)

/-- **C3.** Every operation that mutates a tracked file in place — a
successful download (rename of the temporary file over the destination), a
successful patch merge replacing the base file, a staged full-file move into
the install root, and a variant-switch rename in either direction — deletes
that file's Integrity Cache record immediately after the mutation. -/
theorem C3_mutations_invalidate_cache :
    (∀ (env : Nat → NetOutcome) (fs : FS) (c : CacheState) (dest : String)
        (expected mtimeNew : Nat),
      (downloadFile env fs c dest expected mtimeNew).2.2.success = true →
      cacheLookup (downloadFile env fs c dest expected mtimeNew).2.1 dest = none) ∧
    (∀ (tool : String → PatchOutcome) (st : ApplySt) (f : StagedFile) (b : FileData),
      f.rel ≠ "predownload_version.json" → strEndsWith f.rel ".hpatch" = true →
      st.fs (strDropRight f.rel 7) = some b → (tool f.rel).ret = 0 →
      cacheLookup (applyOne tool true st f).cache (strDropRight f.rel 7) = none) ∧
    (∀ (tool : String → PatchOutcome) (isPatch : Bool) (st : ApplySt) (f : StagedFile),
      f.rel ≠ "predownload_version.json" →
      (isPatch && strEndsWith f.rel ".hpatch") = false →
      cacheLookup (applyOne tool isPatch st f).cache f.rel = none) ∧
    (∀ (st : ChkSt) (f : String), (st.fs f).isSome = true →
      cacheLookup (disableOne st f).cache f = none) ∧
    (∀ (sm : ChkSt × Bool) (f : String), (sm.1.fs (BAK f)).isSome = true →
      cacheLookup (enableOne sm f).1.cache f = none) := by
  refine ⟨?_, ?_, ?_, ?_, ?_⟩
  · intro env fs c dest expected mtimeNew h
    unfold downloadFile at h ⊢
    by_cases hs : (downloadOne env expected ((fs (dest ++ ".temp")).map (·.content))).success
    · simp only [hs, if_true]
      exact cacheLookup_clear_self c dest
    · simp only [hs, if_false] at h
      exact absurd h (by simp [hs])
  · intro tool st f b hmark hsuf hbase hret
    unfold applyOne
    rw [if_neg hmark]
    simp only [Bool.true_and, hsuf, if_true, hbase]
    simp only [hret, if_pos]
    exact cacheLookup_clear_self st.cache (strDropRight f.rel 7)
  · intro tool isPatch st f hmark hcond
    unfold applyOne
    rw [if_neg hmark]
    simp only [hcond, Bool.false_eq_true, if_false]
    exact cacheLookup_clear_self st.cache f.rel
  · intro st f h
    unfold disableOne
    rw [if_pos h]
    exact cacheLookup_clear_self st.cache f
  · intro sm f h
    unfold enableOne
    rw [if_pos h]
    exact cacheLookup_clear_self sm.1.cache f

/-- Concrete instantiation of `C3_mutations_invalidate_cache`: each of the
five mutation primitives clears the record of the file it just rewrote. -/
theorem C3_mutations_invalidate_cache_witness :
    cacheLookup (downloadFile (fun _ => .ok [1, 2]) (fun _ => none)
        ⟨[("a.bin", ⟨0, 9⟩)], false⟩ "a.bin" 2 5).2.1 "a.bin" = none ∧
    cacheLookup (applyOne (fun _ => ⟨0, some ⟨3, [7]⟩⟩) true
        ⟨fsSet (fun _ => none) "a.bin" (some ⟨1, [1]⟩), ⟨[("a.bin", ⟨0, 9⟩)], false⟩, 0, 0⟩
        ⟨"a.bin.hpatch", ⟨2, [5]⟩⟩).cache "a.bin" = none ∧
    cacheLookup (applyOne (fun _ => ⟨0, none⟩) false
        ⟨(fun _ => none), ⟨[("b.bin", ⟨0, 9⟩)], false⟩, 0, 0⟩
        ⟨"b.bin", ⟨2, [5]⟩⟩).cache "b.bin" = none ∧
    cacheLookup (disableOne ⟨fsSet (fun _ => none) "c.dll" (some ⟨1, [1]⟩),
        ⟨[("c.dll", ⟨1, 9⟩)], false⟩⟩ "c.dll").cache "c.dll" = none ∧
    cacheLookup (enableOne (⟨fsSet (fun _ => none) (BAK "c.dll") (some ⟨1, [1]⟩),
        ⟨[("c.dll", ⟨1, 9⟩)], false⟩⟩, false) "c.dll").1.cache "c.dll" = none := by
  refine ⟨?_, ?_, ?_, ?_, ?_⟩
  · exact C3_mutations_invalidate_cache.1 (fun _ => .ok [1, 2]) (fun _ => none)
      ⟨[("a.bin", ⟨0, 9⟩)], false⟩ "a.bin" 2 5 (by decide)
  · exact C3_mutations_invalidate_cache.2.1 (fun _ => ⟨0, some ⟨3, [7]⟩⟩)
      ⟨fsSet (fun _ => none) "a.bin" (some ⟨1, [1]⟩), ⟨[("a.bin", ⟨0, 9⟩)], false⟩, 0, 0⟩
      ⟨"a.bin.hpatch", ⟨2, [5]⟩⟩ ⟨1, [1]⟩ (by decide) (by decide) (by decide) (by decide)
  · exact C3_mutations_invalidate_cache.2.2.1 (fun _ => ⟨0, none⟩) false
      ⟨(fun _ => none), ⟨[("b.bin", ⟨0, 9⟩)], false⟩, 0, 0⟩
      ⟨"b.bin", ⟨2, [5]⟩⟩ (by decide) (by decide)
  · exact C3_mutations_invalidate_cache.2.2.2.1
      ⟨fsSet (fun _ => none) "c.dll" (some ⟨1, [1]⟩), ⟨[("c.dll", ⟨1, 9⟩)], false⟩⟩
      "c.dll" (by decide)
  · exact C3_mutations_invalidate_cache.2.2.2.2
      (⟨fsSet (fun _ => none) (BAK "c.dll") (some ⟨1, [1]⟩),
        ⟨[("c.dll", ⟨1, 9⟩)], false⟩⟩, false) "c.dll" (by decide)

theorem dloop_done (env : Nat → NetOutcome) (expected fuel attempt : Nat)
    (temp : Option (List Nat)) (evs : List AttemptEvent) (slps : List (Nat × Nat))
    (h : tempLen temp = expected) :
    dloop env expected (fuel + 1) attempt temp evs slps =
      ⟨true, temp, (AttemptEvent.noRequest :: evs).reverse, slps.reverse⟩ := by
  unfold dloop
  rw [if_pos h]

theorem dloop_ok (env : Nat → NetOutcome) (expected fuel attempt : Nat)
    (temp : Option (List Nat)) (evs : List AttemptEvent) (slps : List (Nat × Nat))
    (bytes : List Nat) (h : tempLen temp ≠ expected) (he : env attempt = .ok bytes) :
    dloop env expected (fuel + 1) attempt temp evs slps =
      (if (writeBody temp (tempLen temp) bytes).length = expected then
        (⟨true, some (writeBody temp (tempLen temp) bytes),
          (AttemptEvent.request (if 0 < tempLen temp then some (tempLen temp) else none)
              (.ok bytes) :: evs).reverse, slps.reverse⟩ : DRes)
      else
        dloop env expected fuel (attempt + 1) (some (writeBody temp (tempLen temp) bytes))
          (AttemptEvent.request (if 0 < tempLen temp then some (tempLen temp) else none)
              (.ok bytes) :: evs) slps) := by
  conv_lhs => unfold dloop
  rw [if_neg h, he]

theorem dloop_err (env : Nat → NetOutcome) (expected fuel attempt : Nat)
    (temp : Option (List Nat)) (evs : List AttemptEvent) (slps : List (Nat × Nat))
    (written : Option (List Nat)) (h : tempLen temp ≠ expected)
    (he : env attempt = .err written) :
    dloop env expected (fuel + 1) attempt temp evs slps =
      (let nt := match written with
        | none => temp
        | some bs => some (writeBody temp (tempLen temp) bs)
      let ev := AttemptEvent.request
        (if 0 < tempLen temp then some (tempLen temp) else none) (.err written)
      if fuel = 0 then (⟨false, nt, (ev :: evs).reverse, slps.reverse⟩ : DRes)
      else dloop env expected fuel (attempt + 1) nt (ev :: evs)
        ((attempt, attempt + 1) :: slps)) := by
  conv_lhs => unfold dloop
  rw [if_neg h]
  simp only [he]
  cases written <;> rfl

/-- The event trace accumulates: events already recorded come first. -/
theorem dloop_events_acc (env : Nat → NetOutcome) (expected : Nat) :
    ∀ (fuel attempt : Nat) (temp : Option (List Nat)) (evs : List AttemptEvent)
      (slps : List (Nat × Nat)),
      (dloop env expected fuel attempt temp evs slps).events =
        evs.reverse ++ (dloop env expected fuel attempt temp [] slps).events
  | 0, attempt, temp, evs, slps => by simp [dloop]
  | fuel + 1, attempt, temp, evs, slps => by
      by_cases h : tempLen temp = expected
      · rw [dloop_done env expected fuel attempt temp evs slps h,
          dloop_done env expected fuel attempt temp [] slps h]
        simp
      · cases he : env attempt with
        | ok bytes =>
            rw [dloop_ok env expected fuel attempt temp evs slps bytes h he,
              dloop_ok env expected fuel attempt temp [] slps bytes h he]
            by_cases hl : (writeBody temp (tempLen temp) bytes).length = expected
            · rw [if_pos hl, if_pos hl]
              simp
            · rw [if_neg hl, if_neg hl]
              rw [dloop_events_acc env expected fuel (attempt + 1) _ (_ :: evs) slps,
                dloop_events_acc env expected fuel (attempt + 1) _ [_] slps]
              simp
        | err written =>
            rw [dloop_err env expected fuel attempt temp evs slps written h he,
              dloop_err env expected fuel attempt temp [] slps written h he]
            by_cases hf : fuel = 0
            · simp only [hf, if_true]
              simp
            · simp only [hf, if_false]
              rw [dloop_events_acc env expected fuel (attempt + 1) _ (_ :: evs) _,
                dloop_events_acc env expected fuel (attempt + 1) _ [_] _]
              simp

/-- Each remaining attempt contributes at most one more event. -/
theorem dloop_events_len (env : Nat → NetOutcome) (expected : Nat) :
    ∀ (fuel attempt : Nat) (temp : Option (List Nat)) (evs : List AttemptEvent)
      (slps : List (Nat × Nat)),
      (dloop env expected fuel attempt temp evs slps).events.length ≤ evs.length + fuel
  | 0, attempt, temp, evs, slps => by simp [dloop]
  | fuel + 1, attempt, temp, evs, slps => by
      by_cases h : tempLen temp = expected
      · rw [dloop_done env expected fuel attempt temp evs slps h]
        simp
      · cases he : env attempt with
        | ok bytes =>
            rw [dloop_ok env expected fuel attempt temp evs slps bytes h he]
            by_cases hl : (writeBody temp (tempLen temp) bytes).length = expected
            · rw [if_pos hl]
              simp
            · rw [if_neg hl]
              have := dloop_events_len env expected fuel (attempt + 1)
                (some (writeBody temp (tempLen temp) bytes))
                (AttemptEvent.request
                  (if 0 < tempLen temp then some (tempLen temp) else none)
                  (.ok bytes) :: evs) slps
              simp only [List.length_cons] at this
              omega
        | err written =>
            rw [dloop_err env expected fuel attempt temp evs slps written h he]
            by_cases hf : fuel = 0
            · simp only [hf, if_true]
              simp
            · simp only [hf, if_false]
              have := dloop_events_len env expected fuel (attempt + 1)
                (match written with
                  | none => temp
                  | some bs => some (writeBody temp (tempLen temp) bs))
                (AttemptEvent.request
                  (if 0 < tempLen temp then some (tempLen temp) else none)
                  (.err written) :: evs)
                ((attempt, attempt + 1) :: slps)
              simp only [List.length_cons] at this
              omega

/-- Every sleep the loop records is `1 + attempt` seconds after a non-final
failed attempt. -/
theorem dloop_sleeps_mem (env : Nat → NetOutcome) (expected : Nat) :
    ∀ (fuel attempt : Nat) (temp : Option (List Nat)) (evs : List AttemptEvent)
      (slps : List (Nat × Nat)) (p : Nat × Nat),
      p ∈ (dloop env expected fuel attempt temp evs slps).sleeps →
      p ∈ slps ∨ (p.2 = p.1 + 1 ∧ attempt ≤ p.1 ∧ p.1 + 1 < attempt + fuel)
  | 0, attempt, temp, evs, slps, p => by
      intro h
      simp only [dloop, List.mem_reverse] at h
      exact Or.inl h
  | fuel + 1, attempt, temp, evs, slps, p => by
      intro hmem
      by_cases h : tempLen temp = expected
      · rw [dloop_done env expected fuel attempt temp evs slps h] at hmem
        simp only [List.mem_reverse] at hmem
        exact Or.inl hmem
      · cases he : env attempt with
        | ok bytes =>
            rw [dloop_ok env expected fuel attempt temp evs slps bytes h he] at hmem
            by_cases hl : (writeBody temp (tempLen temp) bytes).length = expected
            · rw [if_pos hl] at hmem
              simp only [List.mem_reverse] at hmem
              exact Or.inl hmem
            · rw [if_neg hl] at hmem
              rcases dloop_sleeps_mem env expected fuel (attempt + 1) _ _ slps p hmem with
                h1 | ⟨h1, h2, h3⟩
              · exact Or.inl h1
              · exact Or.inr ⟨h1, by omega, by omega⟩
        | err written =>
            rw [dloop_err env expected fuel attempt temp evs slps written h he] at hmem
            by_cases hf : fuel = 0
            · simp only [hf, if_true] at hmem
              simp only [List.mem_reverse] at hmem
              exact Or.inl hmem
            · simp only [hf, if_false] at hmem
              rcases dloop_sleeps_mem env expected fuel (attempt + 1) _ _
                  ((attempt, attempt + 1) :: slps) p hmem with h1 | ⟨h1, h2, h3⟩
              · rcases List.mem_cons.1 h1 with h2 | h2
                · subst h2
                  exact Or.inr ⟨rfl, le_refl _, by omega⟩
                · exact Or.inl h2
              · exact Or.inr ⟨h1, by omega, by omega⟩

/-- A path is never equal to itself with a nonempty suffix appended. -/
theorem ne_append_suffix (s t : String) (h : t.length ≠ 0) : s ≠ s ++ t := by
  intro heq
  have := congrArg String.length heq
  rw [String.length_append] at this
  omega

/-- The `DRes` component of `downloadFile` is the retry loop's result. -/
theorem downloadFile_res (env : Nat → NetOutcome) (fs : FS) (c : CacheState)
    (dest : String) (expected mtimeNew : Nat) :
    (downloadFile env fs c dest expected mtimeNew).2.2 =
      downloadOne env expected ((fs (dest ++ ".temp")).map (·.content)) := by
  unfold downloadFile
  by_cases h : (downloadOne env expected ((fs (dest ++ ".temp")).map (·.content))).success <;>
    simp [h]

/-- **C4.** For every download task: if the temporary sibling file already has
exactly the expected size, the single-file download returns success without
issuing any network request; if the temporary file is a non-empty partial,
the HTTP request carries a `Range` header starting exactly at the partial's
current length and the response is appended; on success the temporary file is
renamed over the destination path, leaving no temporary file behind. -/
theorem C4_download_lifecycle (env : Nat → NetOutcome) (fs : FS) (c : CacheState)
    (dest : String) (expected mtimeNew : Nat) :
    (∀ fd, fs (dest ++ ".temp") = some fd → fd.content.length = expected →
      (downloadFile env fs c dest expected mtimeNew).2.2.success = true ∧
      (downloadFile env fs c dest expected mtimeNew).2.2.events = [.noRequest]) ∧
    (∀ fd bytes, fs (dest ++ ".temp") = some fd → 0 < fd.content.length →
      fd.content.length ≠ expected → env 0 = .ok bytes →
      (∃ evs', (downloadFile env fs c dest expected mtimeNew).2.2.events =
        .request (some fd.content.length) (.ok bytes) :: evs') ∧
      ((fd.content ++ bytes).length = expected →
        (downloadFile env fs c dest expected mtimeNew).2.2.success = true ∧
        (downloadFile env fs c dest expected mtimeNew).2.2.temp =
          some (fd.content ++ bytes))) ∧
    ((downloadFile env fs c dest expected mtimeNew).2.2.success = true →
      (downloadFile env fs c dest expected mtimeNew).1 dest =
        some ⟨mtimeNew, (downloadFile env fs c dest expected mtimeNew).2.2.temp.getD []⟩ ∧
      (downloadFile env fs c dest expected mtimeNew).1 (dest ++ ".temp") = none) := by
  have hres := downloadFile_res env fs c dest expected mtimeNew
  refine ⟨?_, ?_, ?_⟩
  · intro fd hfs hlen
    rw [hres]
    unfold downloadOne RETRIES
    rw [hfs]
    simp only [Option.map_some']
    have hT : tempLen (some fd.content) = expected := hlen
    rw [show (3 : Nat) = 2 + 1 from rfl, dloop_done env expected 2 0 (some fd.content) [] [] hT]
    exact ⟨rfl, rfl⟩
  · intro fd bytes hfs hpos hlen henv
    rw [hres]
    unfold downloadOne RETRIES
    rw [hfs]
    simp only [Option.map_some']
    have hT : tempLen (some fd.content) = fd.content.length := rfl
    have hTne : tempLen (some fd.content) ≠ expected := by rw [hT]; exact hlen
    have hwb : writeBody (some fd.content) (tempLen (some fd.content)) bytes =
        fd.content ++ bytes := by
      unfold writeBody
      rw [if_pos (by rw [hT]; exact hpos)]
      rfl
    have hrange : (if 0 < tempLen (some fd.content) then some (tempLen (some fd.content))
        else none) = some fd.content.length := by
      rw [if_pos (by rw [hT]; exact hpos), hT]
    rw [show (3 : Nat) = 2 + 1 from rfl,
      dloop_ok env expected 2 0 (some fd.content) [] [] bytes hTne henv, hwb, hrange]
    by_cases hl : (fd.content ++ bytes).length = expected
    · rw [if_pos hl]
      exact ⟨⟨[], rfl⟩, fun _ => ⟨rfl, rfl⟩⟩
    · rw [if_neg hl]
      constructor
      · rw [dloop_events_acc env expected 2 1 (some (fd.content ++ bytes)) _ []]
        exact ⟨(dloop env expected 2 1 (some (fd.content ++ bytes)) [] []).events, rfl⟩
      · intro hcontra
        exact absurd hcontra hl
  · intro hsucc
    rw [hres] at hsucc
    have hD : downloadFile env fs c dest expected mtimeNew =
        (fsSet (fsSet fs dest (some ⟨mtimeNew,
            (downloadOne env expected ((fs (dest ++ ".temp")).map (·.content))).temp.getD []⟩))
          (dest ++ ".temp") none,
          cacheClear c dest,
          downloadOne env expected ((fs (dest ++ ".temp")).map (·.content))) := by
      unfold downloadFile
      rw [if_pos hsucc]
    rw [hD]
    have hne : dest ≠ dest ++ ".temp" := ne_append_suffix dest ".temp" (by decide)
    refine ⟨?_, ?_⟩
    · show fsSet (fsSet fs dest (some ⟨mtimeNew,
          (downloadOne env expected ((fs (dest ++ ".temp")).map (·.content))).temp.getD []⟩))
          (dest ++ ".temp") none dest = _
      rw [fsSet_ne _ _ _ _ hne, fsSet_self]
    · show fsSet (fsSet fs dest (some ⟨mtimeNew,
          (downloadOne env expected ((fs (dest ++ ".temp")).map (·.content))).temp.getD []⟩))
          (dest ++ ".temp") none (dest ++ ".temp") = none
      rw [fsSet_self]

/-- Concrete instantiation of `C4_download_lifecycle`: a complete temporary
file yields success with no request, and the destination receives the bytes
while the temporary file disappears. -/
theorem C4_download_lifecycle_witness :
    ((downloadFile (fun _ => .err none)
        (fsSet (fun _ => none) ("a.bin" ++ ".temp") (some ⟨4, [1, 2]⟩))
        ⟨[], false⟩ "a.bin" 2 9).2.2.success = true ∧
      (downloadFile (fun _ => .err none)
        (fsSet (fun _ => none) ("a.bin" ++ ".temp") (some ⟨4, [1, 2]⟩))
        ⟨[], false⟩ "a.bin" 2 9).2.2.events = [.noRequest]) ∧
    ((downloadFile (fun _ => .err none)
        (fsSet (fun _ => none) ("a.bin" ++ ".temp") (some ⟨4, [1, 2]⟩))
        ⟨[], false⟩ "a.bin" 2 9).1 "a.bin" = some ⟨9, [1, 2]⟩ ∧
      (downloadFile (fun _ => .err none)
        (fsSet (fun _ => none) ("a.bin" ++ ".temp") (some ⟨4, [1, 2]⟩))
        ⟨[], false⟩ "a.bin" 2 9).1 ("a.bin" ++ ".temp") = none) := by
  have hC := C4_download_lifecycle (fun _ => .err none)
    (fsSet (fun _ => none) ("a.bin" ++ ".temp") (some ⟨4, [1, 2]⟩)) ⟨[], false⟩ "a.bin" 2 9
  have h1 := hC.1 ⟨4, [1, 2]⟩ (by decide) (by decide)
  have h3 := hC.2.2 h1.1
  refine ⟨⟨h1.1, h1.2⟩, ?_, h3.2⟩
  have htemp : (downloadFile (fun _ => .err none)
      (fsSet (fun _ => none) ("a.bin" ++ ".temp") (some ⟨4, [1, 2]⟩))
      ⟨[], false⟩ "a.bin" 2 9).2.2.temp = some [1, 2] := by decide
  rw [h3.1, htemp]
  rfl

/-- **C5 (amended).** Each download task is attempted at most 3 times; when a
delay is taken between attempts it is `1 + attempt` seconds (1s after the
first failed attempt, 2s after the second) — such a delay follows only an
attempt that failed with an exception (a fully streamed attempt of the wrong
size is retried immediately with no delay, which is the amendment); a fully
streamed temporary file of the wrong size counts as a failed attempt that is
retried rather than a permanent failure; and every task in a batch is driven
to its own terminal result regardless of its siblings' outcomes. -/
theorem C5_retry_policy :
    (∀ (env : Nat → NetOutcome) (expected : Nat) (tempInit : Option (List Nat)),
      (downloadOne env expected tempInit).events.length ≤ RETRIES) ∧
    (∀ (env : Nat → NetOutcome) (expected : Nat) (tempInit : Option (List Nat))
        (p : Nat × Nat),
      p ∈ (downloadOne env expected tempInit).sleeps →
      p.2 = p.1 + 1 ∧ p.1 + 1 < RETRIES) ∧
    (∀ (env : Nat → NetOutcome) (expected fuel attempt : Nat)
        (temp : Option (List Nat)) (evs : List AttemptEvent)
        (slps : List (Nat × Nat)) (bytes : List Nat),
      tempLen temp ≠ expected → env attempt = .ok bytes →
      (writeBody temp (tempLen temp) bytes).length ≠ expected →
      dloop env expected (fuel + 1) attempt temp evs slps =
        dloop env expected fuel (attempt + 1)
          (some (writeBody temp (tempLen temp) bytes))
          (AttemptEvent.request
            (if 0 < tempLen temp then some (tempLen temp) else none)
            (.ok bytes) :: evs) slps) ∧
    (∀ (envs : Nat → Nat → NetOutcome) (tasks : List TaskSpec),
      (batchResults envs tasks).length = tasks.length ∧
      ∀ (i : Nat) (h1 : i < (batchResults envs tasks).length) (h2 : i < tasks.length),
        (batchResults envs tasks).get ⟨i, h1⟩ =
          downloadOne (envs i) (tasks.get ⟨i, h2⟩).expected (tasks.get ⟨i, h2⟩).tempInit) := by
  refine ⟨?_, ?_, ?_, ?_⟩
  · intro env expected tempInit
    have := dloop_events_len env expected RETRIES 0 tempInit [] []
    simpa [downloadOne] using this
  · intro env expected tempInit p hp
    rcases dloop_sleeps_mem env expected RETRIES 0 tempInit [] [] p hp with h | ⟨h1, _, h3⟩
    · exact absurd h (by simp)
    · exact ⟨h1, by simpa using h3⟩
  · intro env expected fuel attempt temp evs slps bytes h he hl
    rw [dloop_ok env expected fuel attempt temp evs slps bytes h he, if_neg hl]
  · intro envs tasks
    constructor
    · simp [batchResults]
    · intro i h1 h2
      simp [batchResults, List.get_eq_getElem, List.getElem_map, List.getElem_enum]

/-- Concrete instantiation of `C5_retry_policy`: an exception on the first
attempt sleeps exactly 1 second, and a wrong-size streamed body on a
non-final attempt is retried immediately. -/
theorem C5_retry_policy_witness :
    ((0, 1).2 = (0, 1).1 + 1 ∧ (0, 1).1 + 1 < RETRIES) ∧
    dloop (fun _ => .ok [1]) 2 (1 + 1) 0 none [] [] =
      dloop (fun _ => .ok [1]) 2 1 1 (some (writeBody none (tempLen none) [1]))
        (AttemptEvent.request
          (if 0 < tempLen none then some (tempLen none) else none)
          (.ok [1]) :: []) [] :=
  ⟨C5_retry_policy.2.1 (fun i => if i = 0 then .err none else .ok [5, 5]) 2 none (0, 1)
      (by decide),
    C5_retry_policy.2.2.1 (fun _ => .ok [1]) 2 1 0 none [] [] [1]
      (by decide) rfl (by decide)⟩

/-- **C5 counterexample.** The claim says attempts are separated by a linearly
increasing delay (1s, then 2s).  On this input the first attempt streams a
full body of the wrong size and the second attempt follows with *no* sleep
recorded between them: two attempts, empty sleep trace. -/
theorem C5_counterexample :
    (downloadOne (fun i => if i = 0 then .ok [1] else .ok [9]) 2 none).events.length = 2 ∧
    (downloadOne (fun i => if i = 0 then .ok [1] else .ok [9]) 2 none).sleeps = [] ∧
    (downloadOne (fun i => if i = 0 then .ok [1] else .ok [9]) 2 none).success = true := by
  decide

/-- **C6.** During patch application, for each delta entry: if the base
(pre-update) file is missing, only that entry is skipped (the state is left
untouched) and processing of the remaining entries continues; if the external
merge tool exits non-zero, any partial new-file output is deleted and the
base file is left byte-for-byte untouched (and no cache record changes), and
the remaining entries are still processed. -/
theorem C6_patch_error_handling (tool : String → PatchOutcome) (st : ApplySt)
    (f : StagedFile) :
    (f.rel ≠ "predownload_version.json" → strEndsWith f.rel ".hpatch" = true →
      st.fs (strDropRight f.rel 7) = none →
      applyOne tool true st f = st ∧
      ∀ rest : List StagedFile,
        (f :: rest).foldl (applyOne tool true) st = rest.foldl (applyOne tool true) st) ∧
    (∀ b : FileData, f.rel ≠ "predownload_version.json" →
      strEndsWith f.rel ".hpatch" = true →
      st.fs (strDropRight f.rel 7) = some b → (tool f.rel).ret ≠ 0 →
      (applyOne tool true st f).fs (strDropRight f.rel 7) = some b ∧
      (applyOne tool true st f).fs (strDropRight f.rel 7 ++ ".new") = none ∧
      (applyOne tool true st f).cache = st.cache ∧
      ∀ rest : List StagedFile,
        (f :: rest).foldl (applyOne tool true) st =
          rest.foldl (applyOne tool true) (applyOne tool true st f)) := by
  constructor
  · intro hmark hsuf hbase
    have hskip : applyOne tool true st f = st := by
      unfold applyOne
      rw [if_neg hmark]
      simp only [Bool.true_and, hsuf, if_true, hbase]
    exact ⟨hskip, fun rest => by rw [List.foldl_cons, hskip]⟩
  · intro b hmark hsuf hbase hret
    have hne : strDropRight f.rel 7 ≠ strDropRight f.rel 7 ++ ".new" :=
      ne_append_suffix _ ".new" (by decide)
    cases hw : (tool f.rel).written with
    | none =>
        have hfail : applyOne tool true st f =
            { st with fs := fsSet st.fs (strDropRight f.rel 7 ++ ".new") none } := by
          unfold applyOne
          rw [if_neg hmark]
          simp only [Bool.true_and, hsuf, if_true, hbase, hw]
          rw [if_neg hret]
        refine ⟨?_, ?_, ?_, fun rest => by rw [List.foldl_cons]⟩
        · rw [hfail]
          show fsSet st.fs (strDropRight f.rel 7 ++ ".new") none
            (strDropRight f.rel 7) = some b
          rw [fsSet_ne _ _ _ _ hne]
          exact hbase
        · rw [hfail]
          show fsSet st.fs (strDropRight f.rel 7 ++ ".new") none
            (strDropRight f.rel 7 ++ ".new") = none
          rw [fsSet_self]
        · rw [hfail]
    | some d =>
        have hfail : applyOne tool true st f =
            { st with fs := (fsSet (fsSet st.fs (strDropRight f.rel 7 ++ ".new") (some d))
                (strDropRight f.rel 7 ++ ".new") none) } := by
          unfold applyOne
          rw [if_neg hmark]
          simp only [Bool.true_and, hsuf, if_true, hbase, hw]
          rw [if_neg hret]
        refine ⟨?_, ?_, ?_, fun rest => by rw [List.foldl_cons]⟩
        · rw [hfail]
          show fsSet (fsSet st.fs (strDropRight f.rel 7 ++ ".new") (some d))
            (strDropRight f.rel 7 ++ ".new") none (strDropRight f.rel 7) = some b
          rw [fsSet_ne _ _ _ _ hne, fsSet_ne _ _ _ _ hne]
          exact hbase
        · rw [hfail]
          show fsSet (fsSet st.fs (strDropRight f.rel 7 ++ ".new") (some d))
            (strDropRight f.rel 7 ++ ".new") none (strDropRight f.rel 7 ++ ".new") = none
          rw [fsSet_self]
        · rw [hfail]

/-- Concrete instantiation of `C6_patch_error_handling`: a missing base skips
the entry entirely, and a failing merge (exit code 1 with a partial output)
leaves the base intact and no `.new` file behind. -/
theorem C6_patch_error_handling_witness :
    (applyOne (fun _ => ⟨1, some ⟨9, [1]⟩⟩) true
        ⟨fun _ => none, ⟨[], false⟩, 0, 0⟩ ⟨"a.bin.hpatch", ⟨2, [5]⟩⟩ =
      (⟨fun _ => none, ⟨[], false⟩, 0, 0⟩ : ApplySt)) ∧
    ((applyOne (fun _ => ⟨1, some ⟨9, [1]⟩⟩) true
        ⟨fsSet (fun _ => none) "a.bin" (some ⟨3, [7, 7]⟩), ⟨[], false⟩, 0, 0⟩
        ⟨"a.bin.hpatch", ⟨2, [5]⟩⟩).fs (strDropRight "a.bin.hpatch" 7) =
      some ⟨3, [7, 7]⟩ ∧
    (applyOne (fun _ => ⟨1, some ⟨9, [1]⟩⟩) true
        ⟨fsSet (fun _ => none) "a.bin" (some ⟨3, [7, 7]⟩), ⟨[], false⟩, 0, 0⟩
        ⟨"a.bin.hpatch", ⟨2, [5]⟩⟩).fs (strDropRight "a.bin.hpatch" 7 ++ ".new") = none) :=
  ⟨((C6_patch_error_handling (fun _ => ⟨1, some ⟨9, [1]⟩⟩)
      ⟨fun _ => none, ⟨[], false⟩, 0, 0⟩ ⟨"a.bin.hpatch", ⟨2, [5]⟩⟩).1
      (by decide) (by decide) (by decide)).1,
    ((C6_patch_error_handling (fun _ => ⟨1, some ⟨9, [1]⟩⟩)
        ⟨fsSet (fun _ => none) "a.bin" (some ⟨3, [7, 7]⟩), ⟨[], false⟩, 0, 0⟩
        ⟨"a.bin.hpatch", ⟨2, [5]⟩⟩).2 ⟨3, [7, 7]⟩
      (by decide) (by decide) (by decide) (by decide)).1,
    ((C6_patch_error_handling (fun _ => ⟨1, some ⟨9, [1]⟩⟩)
        ⟨fsSet (fun _ => none) "a.bin" (some ⟨3, [7, 7]⟩), ⟨[], false⟩, 0, 0⟩
        ⟨"a.bin.hpatch", ⟨2, [5]⟩⟩).2 ⟨3, [7, 7]⟩
      (by decide) (by decide) (by decide) (by decide)).2.1⟩

theorem syncFiles_tasks (force : Bool) (manifest : List ManifestEntry)
    (resBase : String) (fs : FS) (c : CacheState) :
    (syncFiles force manifest resBase fs c).tasks =
      (syncLoop force resBase fs manifest [] c).1 := by
  simp only [syncFiles]
  by_cases h : (syncLoop force resBase fs manifest [] c).1 = [] <;> simp [h]

theorem syncFiles_cache (force : Bool) (manifest : List ManifestEntry)
    (resBase : String) (fs : FS) (c : CacheState) :
    (syncFiles force manifest resBase fs c).cache =
      (syncLoop force resBase fs manifest [] c).2 := by
  simp only [syncFiles]
  by_cases h : (syncLoop force resBase fs manifest [] c).1 = [] <;> simp [h]

/-- **C1 (amended).** After processing all staged entries, `apply_predownload`
deletes the staging directory and triggers a synchronization pass with forced
verification *disabled* (`sync_files(force_check_md5=False)`): that final
pass classifies entries by the size-only fast path, so it re-downloads only
entries whose destination is absent or size-mismatched, never consulting a
hash (its classification leaves the integrity cache untouched).  This amends
the claim's assertion that the final pass is the hash-based full-verification
path. -/
theorem C1_final_sync_fast_path (manifest : List ManifestEntry) (resBase : String)
    (tool : String → PatchOutcome) (hasHpatchz : Bool) (info : PredState)
    (files : List StagedFile) (markerExists : Bool) (fs : FS) (c : CacheState)
    (h : (info.isPatch && !hasHpatchz) = false) :
    (applyPredownload manifest resBase tool hasHpatchz (some (info, files))
        markerExists fs c).stagingDeleted = true ∧
    (applyPredownload manifest resBase tool hasHpatchz (some (info, files))
        markerExists fs c).finalSyncForce = false ∧
    (∀ sr, (applyPredownload manifest resBase tool hasHpatchz (some (info, files))
        markerExists fs c).finalSync = some sr →
      sr.cache = (applyPredownload manifest resBase tool hasHpatchz (some (info, files))
        markerExists fs c).cache ∧
      ∀ t ∈ sr.tasks,
        (applyPredownload manifest resBase tool hasHpatchz (some (info, files))
          markerExists fs c).fs t.dest = none ∨
        ∃ fd, (applyPredownload manifest resBase tool hasHpatchz (some (info, files))
          markerExists fs c).fs t.dest = some fd ∧ fd.size ≠ t.size) := by
  have hA : applyPredownload manifest resBase tool hasHpatchz (some (info, files))
      markerExists fs c =
      (let st := files.foldl (applyOne tool info.isPatch) ⟨fs, c, 0, 0⟩
       let sync := syncFiles false manifest resBase st.fs st.cache
       ⟨true, true, st.fs, st.cache, st.patchCount, st.moveCount,
         markerExists, false, some sync⟩) := by
    unfold applyPredownload
    simp only [h, Bool.false_eq_true, if_false]
  rw [hA]
  refine ⟨rfl, rfl, ?_⟩
  intro sr hsr
  simp only [Option.some.injEq] at hsr
  subst hsr
  constructor
  · rw [syncFiles_cache, syncLoop_false_cache]
  · intro t ht
    rw [syncFiles_tasks] at ht
    rcases syncLoop_false_sound resBase
        (files.foldl (applyOne tool info.isPatch) ⟨fs, c, 0, 0⟩).fs manifest [] _ t ht with
      h1 | ⟨e, _, hdest, hsize, hcond⟩
    · exact absurd h1 (by simp)
    · rcases hcond with h2 | ⟨fd, h2, h3⟩
      · exact Or.inl (by rw [hdest]; exact h2)
      · exact Or.inr ⟨fd, by rw [hdest]; exact h2, by rw [hsize]; exact h3⟩

/-- Concrete instantiation of `C1_final_sync_fast_path`. -/
theorem C1_final_sync_fast_path_witness :
    (applyPredownload [⟨"a.bin", 42, 3⟩] "rb" (fun _ => ⟨1, none⟩) false
        (some (⟨"2.0", false⟩, [⟨"a.bin", ⟨5, [9, 9, 9]⟩⟩])) true
        (fun _ => none) ⟨[], false⟩).stagingDeleted = true :=
  (C1_final_sync_fast_path [⟨"a.bin", 42, 3⟩] "rb" (fun _ => ⟨1, none⟩) false
    ⟨"2.0", false⟩ [⟨"a.bin", ⟨5, [9, 9, 9]⟩⟩] true (fun _ => none) ⟨[], false⟩
    (by decide)).1

/-- **C1 counterexample.** The claim says the final pass checks *every*
manifest entry by comparing the Integrity Cache's hash against the manifest's
declared hash.  Here a staged full file is moved into place whose size
matches the manifest entry (3 bytes) but whose hash differs from the declared
hash `42`; the final pass of `apply_predownload` emits *no* task for it — it
used the size-only fast path, so the hash mismatch goes undetected. -/
theorem C1_counterexample :
    ((applyPredownload [⟨"a.bin", 42, 3⟩] "rb" (fun _ => ⟨1, none⟩) false
        (some (⟨"2.0", false⟩, [⟨"a.bin", ⟨5, [9, 9, 9]⟩⟩])) true
        (fun _ => none) ⟨[], false⟩).finalSync.map (·.tasks)) = some [] ∧
    (applyPredownload [⟨"a.bin", 42, 3⟩] "rb" (fun _ => ⟨1, none⟩) false
        (some (⟨"2.0", false⟩, [⟨"a.bin", ⟨5, [9, 9, 9]⟩⟩])) true
        (fun _ => none) ⟨[], false⟩).fs "a.bin" = some ⟨5, [9, 9, 9]⟩ ∧
    (md5Get (applyPredownload [⟨"a.bin", 42, 3⟩] "rb" (fun _ => ⟨1, none⟩) false
        (some (⟨"2.0", false⟩, [⟨"a.bin", ⟨5, [9, 9, 9]⟩⟩])) true
        (fun _ => none) ⟨[], false⟩).fs
      (applyPredownload [⟨"a.bin", 42, 3⟩] "rb" (fun _ => ⟨1, none⟩) false
        (some (⟨"2.0", false⟩, [⟨"a.bin", ⟨5, [9, 9, 9]⟩⟩])) true
        (fun _ => none) ⟨[], false⟩).cache "a.bin").hash ≠ some 42 := by
  refine ⟨?_, ?_, ?_⟩ <;> decide

/-! ### Rename-pass lemmas for `checkout` -/

theorem BAK_ne_self (f : String) : f ≠ BAK f := ne_append_suffix f ".bak" (by decide)

theorem disableOne_fs (st : ChkSt) (f q : String) :
    (disableOne st f).fs q =
      if (st.fs f).isSome then osReplace f (BAK f) st.fs q else st.fs q := by
  unfold disableOne
  by_cases h : (st.fs f).isSome <;> simp [h]

theorem disableOne_fs_other (st : ChkSt) (f q : String) (h1 : q ≠ f) (h2 : q ≠ BAK f) :
    (disableOne st f).fs q = st.fs q := by
  rw [disableOne_fs]
  by_cases h : (st.fs f).isSome
  · rw [if_pos h, osReplace_other f (BAK f) q st.fs h2 h1]
  · rw [if_neg h]

theorem disableOne_fs_self (st : ChkSt) (f : String) :
    (disableOne st f).fs f = if (st.fs f).isSome then none else st.fs f := by
  rw [disableOne_fs]
  by_cases h : (st.fs f).isSome
  · rw [if_pos h, if_pos h, osReplace_src f (BAK f) st.fs (BAK_ne_self f)]
  · rw [if_neg h, if_neg h]

theorem disableOne_fs_self_none (st : ChkSt) (f : String) :
    ((disableOne st f).fs f).isSome = false := by
  rw [disableOne_fs_self]
  by_cases h : (st.fs f).isSome
  · rw [if_pos h]; rfl
  · rw [if_neg h]; simpa using h

theorem disableOne_fs_bak (st : ChkSt) (f : String) :
    (disableOne st f).fs (BAK f) =
      if (st.fs f).isSome then st.fs f else st.fs (BAK f) := by
  rw [disableOne_fs]
  by_cases h : (st.fs f).isSome
  · rw [if_pos h, if_pos h, osReplace_dst]
  · rw [if_neg h, if_neg h]

/-- Step 1 leaves a path untouched when every list element it aliases
(canonically or as a backup) is absent; requires that no backup path is
itself a canonical entry. -/
theorem foldl_disable_frame :
    ∀ (L : List String) (st : ChkSt) (q : String),
      (∀ g ∈ L, ∀ g' ∈ L, g' ≠ BAK g) →
      (∀ g ∈ L, (q = g ∨ q = BAK g) → st.fs g = none) →
      (L.foldl disableOne st).fs q = st.fs q
  | [], _, _, _, _ => rfl
  | g :: L', st, q, hnb, habs => by
      rw [List.foldl_cons]
      by_cases hq : q = g ∨ q = BAK g
      · have hg : st.fs g = none := habs g (List.mem_cons_self _ _) hq
        have hskip : disableOne st g = st := by
          unfold disableOne
          rw [if_neg (by simp [hg])]
        rw [hskip]
        exact foldl_disable_frame L' st q
          (fun a ha a' ha' => hnb a (List.mem_cons_of_mem _ ha) a' (List.mem_cons_of_mem _ ha'))
          (fun a ha hqa => habs a (List.mem_cons_of_mem _ ha) hqa)
      · push_neg at hq
        have hstep : (disableOne st g).fs q = st.fs q :=
          disableOne_fs_other st g q hq.1 hq.2
        rw [foldl_disable_frame L' (disableOne st g) q
          (fun a ha a' ha' => hnb a (List.mem_cons_of_mem _ ha) a' (List.mem_cons_of_mem _ ha'))
          (fun a ha hqa => ?_), hstep]
        have horig : st.fs a = none := habs a (List.mem_cons_of_mem _ ha) hqa
        by_cases hag : a = g
        · subst hag
          rw [disableOne_fs_self, horig]
          simp
        · have habak : a ≠ BAK g := hnb g (List.mem_cons_self _ _) a (List.mem_cons_of_mem _ ha)
          rw [disableOne_fs_other st g a hag habak]
          exact horig

/-- After step 1, a canonical path that keeps out of every backup slot is
never present. -/
theorem foldl_disable_canon_absent :
    ∀ (L : List String) (st : ChkSt) (f : String),
      (∀ g ∈ L, f ≠ BAK g) →
      (f ∈ L ∨ (st.fs f).isSome = false) →
      ((L.foldl disableOne st).fs f).isSome = false
  | [], st, f, _, h => by
      rcases h with h | h
      · exact absurd h (by simp)
      · exact h
  | g :: L', st, f, hnb, hmem => by
      rw [List.foldl_cons]
      by_cases hfg : f = g
      · subst hfg
        exact foldl_disable_canon_absent L' (disableOne st f) f
          (fun a ha => hnb a (List.mem_cons_of_mem _ ha))
          (Or.inr (disableOne_fs_self_none st f))
      · have hfb : f ≠ BAK g := hnb g (List.mem_cons_self _ _)
        have hstep : (disableOne st g).fs f = st.fs f := disableOne_fs_other st g f hfg hfb
        rcases hmem with hmem | habs
        · rcases List.mem_cons.1 hmem with h | h
          · exact absurd h hfg
          · exact foldl_disable_canon_absent L' (disableOne st g) f
              (fun a ha => hnb a (List.mem_cons_of_mem _ ha)) (Or.inl h)
        · exact foldl_disable_canon_absent L' (disableOne st g) f
            (fun a ha => hnb a (List.mem_cons_of_mem _ ha)) (Or.inr (hstep ▸ habs))

/-- Auxiliary preservation: once a canonical path is absent, later step-1
iterations change neither it nor its backup slot. -/
theorem foldl_disable_keep_bak :
    ∀ (L : List String) (st : ChkSt) (f : String),
      (∀ g ∈ L, BAK f ≠ g) →
      (∀ g ∈ L, g ≠ f → BAK f ≠ BAK g) →
      (∀ g ∈ L, f ≠ BAK g) →
      (st.fs f).isSome = false →
      (L.foldl disableOne st).fs (BAK f) = st.fs (BAK f)
  | [], _, _, _, _, _, _ => rfl
  | g :: L', st, f, h1, h2, h3, habs => by
      rw [List.foldl_cons]
      by_cases hfg : g = f
      · subst hfg
        have hskip : disableOne st g = st := by
          unfold disableOne
          rw [if_neg (by simp [habs])]
        rw [hskip]
        exact foldl_disable_keep_bak L' st g
          (fun a ha => h1 a (List.mem_cons_of_mem _ ha))
          (fun a ha => h2 a (List.mem_cons_of_mem _ ha))
          (fun a ha => h3 a (List.mem_cons_of_mem _ ha)) habs
      · have hb1 : BAK f ≠ g := h1 g (List.mem_cons_self _ _)
        have hb2 : BAK f ≠ BAK g := h2 g (List.mem_cons_self _ _) hfg
        have hstep : (disableOne st g).fs (BAK f) = st.fs (BAK f) :=
          disableOne_fs_other st g (BAK f) hb1 hb2
        have hfstep : (disableOne st g).fs f = st.fs f :=
          disableOne_fs_other st g f (fun h => hfg h.symm) (h3 g (List.mem_cons_self _ _))
        rw [foldl_disable_keep_bak L' (disableOne st g) f
          (fun a ha => h1 a (List.mem_cons_of_mem _ ha))
          (fun a ha => h2 a (List.mem_cons_of_mem _ ha))
          (fun a ha => h3 a (List.mem_cons_of_mem _ ha)) (hfstep ▸ habs), hstep]

/-- The backup slot of a list member after step 1: the canonical file if it
was present (it was moved there), otherwise whatever backup was there
before. -/
theorem foldl_disable_bak :
    ∀ (L : List String) (st : ChkSt) (f : String),
      (∀ g ∈ L, BAK f ≠ g) →
      (∀ g ∈ L, g ≠ f → BAK f ≠ BAK g) →
      (∀ g ∈ L, f ≠ BAK g) →
      f ∈ L →
      (L.foldl disableOne st).fs (BAK f) =
        if (st.fs f).isSome then st.fs f else st.fs (BAK f)
  | [], _, _, _, _, _, hmem => absurd hmem (by simp)
  | g :: L', st, f, h1, h2, h3, hmem => by
      rw [List.foldl_cons]
      by_cases hfg : f = g
      · subst hfg
        have hbv : (disableOne st f).fs (BAK f) =
            if (st.fs f).isSome then st.fs f else st.fs (BAK f) := disableOne_fs_bak st f
        rw [foldl_disable_keep_bak L' (disableOne st f) f
          (fun a ha => h1 a (List.mem_cons_of_mem _ ha))
          (fun a ha => h2 a (List.mem_cons_of_mem _ ha))
          (fun a ha => h3 a (List.mem_cons_of_mem _ ha))
          (disableOne_fs_self_none st f), hbv]
      · have hftail : f ∈ L' := by
          rcases List.mem_cons.1 hmem with h | h
          · exact absurd h hfg
          · exact h
        have hb1 : BAK f ≠ g := h1 g (List.mem_cons_self _ _)
        have hb2 : BAK f ≠ BAK g := h2 g (List.mem_cons_self _ _) (fun h => hfg h.symm)
        have hstep : (disableOne st g).fs (BAK f) = st.fs (BAK f) :=
          disableOne_fs_other st g (BAK f) hb1 hb2
        have hfstep : (disableOne st g).fs f = st.fs f :=
          disableOne_fs_other st g f hfg (h3 g (List.mem_cons_self _ _))
        rw [foldl_disable_bak L' (disableOne st g) f
          (fun a ha => h1 a (List.mem_cons_of_mem _ ha))
          (fun a ha => h2 a (List.mem_cons_of_mem _ ha))
          (fun a ha => h3 a (List.mem_cons_of_mem _ ha)) hftail, hstep, hfstep]

theorem enableOne_restore (sm : ChkSt × Bool) (f : String)
    (h : (sm.1.fs (BAK f)).isSome = true) :
    enableOne sm f =
      ({ fs := osReplace (BAK f) f sm.1.fs, cache := cacheClear sm.1.cache f }, sm.2) := by
  unfold enableOne
  rw [if_pos h]

theorem enableOne_present (sm : ChkSt × Bool) (f : String)
    (hbak : (sm.1.fs (BAK f)).isSome = false) (hf : (sm.1.fs f).isSome = true) :
    enableOne sm f = sm := by
  unfold enableOne
  rw [if_neg (by simp [hbak]), if_pos hf]

theorem enableOne_missing (sm : ChkSt × Bool) (f : String)
    (hbak : (sm.1.fs (BAK f)).isSome = false) (hf : (sm.1.fs f).isSome = false) :
    enableOne sm f = (sm.1, true) := by
  unfold enableOne
  rw [if_neg (by simp [hbak]), if_neg (by simp [hf])]

/-- Step 2 over a two-file override set whose canonical copies were all moved
away by step 1: the `missing` flag is set iff some backup slot is empty. -/
theorem enable_two_missing (s1 : ChkSt) (f1 f2 : String)
    (ha : f2 ≠ f1) (hb : f2 ≠ BAK f1) (hc : BAK f2 ≠ f1) (hd : BAK f2 ≠ BAK f1)
    (h1 : (s1.fs f1).isSome = false) (h2 : (s1.fs f2).isSome = false) :
    ([f1, f2].foldl enableOne (s1, false)).2 =
      (!(s1.fs (BAK f1)).isSome || !(s1.fs (BAK f2)).isSome) := by
  rw [show ([f1, f2].foldl enableOne (s1, false)) =
      enableOne (enableOne (s1, false) f1) f2 from rfl]
  by_cases hbak1 : (s1.fs (BAK f1)).isSome
  · rw [enableOne_restore (s1, false) f1 hbak1]
    have hf2 : (osReplace (BAK f1) f1 s1.fs) f2 = s1.fs f2 :=
      osReplace_other (BAK f1) f1 f2 s1.fs ha hb
    have hb2 : (osReplace (BAK f1) f1 s1.fs) (BAK f2) = s1.fs (BAK f2) :=
      osReplace_other (BAK f1) f1 (BAK f2) s1.fs hc hd
    by_cases hbak2 : (s1.fs (BAK f2)).isSome
    · rw [enableOne_restore _ f2 (by simpa [hb2] using hbak2)]
      simp [hbak1, hbak2]
    · rw [enableOne_missing _ f2 (by simpa [hb2] using hbak2) (by simpa [hf2] using h2)]
      simp [hbak1, hbak2]
  · rw [enableOne_missing (s1, false) f1 (by simpa using hbak1) h1]
    by_cases hbak2 : (s1.fs (BAK f2)).isSome
    · rw [enableOne_restore _ f2 hbak2]
      simp [hbak1, hbak2]
    · rw [enableOne_missing _ f2 (by simpa using hbak2) h2]
      simp [hbak1]

/-- `missing` for a two-file override set, expressed over the file system at
call time: set iff some override file has neither a canonical copy nor a
backup. -/
theorem missing_two (fs : FS) (c : CacheState) (f1 f2 : String)
    (m1 : f1 ∈ allDiffFiles) (m2 : f2 ∈ allDiffFiles)
    (h11 : ∀ g ∈ allDiffFiles, BAK f1 ≠ g)
    (h12 : ∀ g ∈ allDiffFiles, g ≠ f1 → BAK f1 ≠ BAK g)
    (h13 : ∀ g ∈ allDiffFiles, f1 ≠ BAK g)
    (h21 : ∀ g ∈ allDiffFiles, BAK f2 ≠ g)
    (h22 : ∀ g ∈ allDiffFiles, g ≠ f2 → BAK f2 ≠ BAK g)
    (h23 : ∀ g ∈ allDiffFiles, f2 ≠ BAK g)
    (ha : f2 ≠ f1) (hb : f2 ≠ BAK f1) (hc : BAK f2 ≠ f1) (hd : BAK f2 ≠ BAK f1) :
    (([f1, f2].foldl enableOne (allDiffFiles.foldl disableOne ⟨fs, c⟩, false)).2 = true ↔
      ∃ f ∈ [f1, f2], fs f = none ∧ fs (BAK f) = none) := by
  have hD1 : ((allDiffFiles.foldl disableOne ⟨fs, c⟩).fs f1).isSome = false :=
    foldl_disable_canon_absent allDiffFiles ⟨fs, c⟩ f1 h13 (Or.inl m1)
  have hD2 : ((allDiffFiles.foldl disableOne ⟨fs, c⟩).fs f2).isSome = false :=
    foldl_disable_canon_absent allDiffFiles ⟨fs, c⟩ f2 h23 (Or.inl m2)
  have hB1 : (allDiffFiles.foldl disableOne ⟨fs, c⟩).fs (BAK f1) =
      if (fs f1).isSome then fs f1 else fs (BAK f1) :=
    foldl_disable_bak allDiffFiles ⟨fs, c⟩ f1 h11 h12 h13 m1
  have hB2 : (allDiffFiles.foldl disableOne ⟨fs, c⟩).fs (BAK f2) =
      if (fs f2).isSome then fs f2 else fs (BAK f2) :=
    foldl_disable_bak allDiffFiles ⟨fs, c⟩ f2 h21 h22 h23 m2
  rw [enable_two_missing _ f1 f2 ha hb hc hd hD1 hD2, hB1, hB2]
  cases hx1 : fs f1 <;> cases hy1 : fs (BAK f1) <;> cases hx2 : fs f2 <;>
    cases hy2 : fs (BAK f2) <;> simp [hx1, hy1, hx2, hy2]

theorem diffFilesFor_other (t : String) (h1 : t ≠ "cn") (h2 : t ≠ "bilibili")
    (h3 : t ≠ "global") : diffFilesFor t = [] := by
  unfold diffFilesFor SERVER_DIFF_FILES
  rw [List.find?_cons_of_neg _ (by simp only [beq_iff_eq]; exact fun e => h1 e.symm),
    List.find?_cons_of_neg _ (by simp only [beq_iff_eq]; exact fun e => h2 e.symm),
    List.find?_cons_of_neg _ (by simp only [beq_iff_eq]; exact fun e => h3 e.symm)]
  rfl

/-- The `missing` flag of `checkout`'s rename passes is set exactly when some
target override file has neither a canonical copy nor a backup at call
time. -/
theorem checkoutFiles_missing (target : String) (fs : FS) (c : CacheState) :
    (checkoutFiles target ⟨fs, c⟩).2 = true ↔
      ∃ f ∈ diffFilesFor target, fs f = none ∧ fs (BAK f) = none := by
  by_cases h1 : target = "cn"
  · subst h1
    unfold checkoutFiles
    rw [show diffFilesFor "cn" = [K1, K2] from rfl]
    exact missing_two fs c K1 K2 (by decide) (by decide) (by decide) (by decide)
      (by decide) (by decide) (by decide) (by decide) (by decide) (by decide)
      (by decide) (by decide)
  by_cases h2 : target = "bilibili"
  · subst h2
    unfold checkoutFiles
    rw [show diffFilesFor "bilibili" = [B1, B2] from rfl]
    exact missing_two fs c B1 B2 (by decide) (by decide) (by decide) (by decide)
      (by decide) (by decide) (by decide) (by decide) (by decide) (by decide)
      (by decide) (by decide)
  by_cases h3 : target = "global"
  · subst h3
    unfold checkoutFiles
    rw [show diffFilesFor "global" = [K1, K2] from rfl]
    exact missing_two fs c K1 K2 (by decide) (by decide) (by decide) (by decide)
      (by decide) (by decide) (by decide) (by decide) (by decide) (by decide)
      (by decide) (by decide)
  · unfold checkoutFiles
    rw [diffFilesFor_other target h1 h2 h3]
    simp

/-- **C7 (amended).** `checkout` rewrites the local version marker only when
the launcher configuration was already fetched this session
(`_update_local_config` is a no-op when `self._launcher_info` is unset, so a
plain variant switch leaves the marker file untouched — this amends the
claim's unconditional "updates the active-variant marker"); when it does
write, the recorded `appId` is the construction-time config's.  Afterwards a
full-verification synchronization pass (`sync_files(force_check_md5=True)`)
is triggered exactly when some target override file had neither a canonical
copy nor a backup, or the caller requested a forced check. -/
theorem C7_checkout_marker_and_sync (manifest : List ManifestEntry) (resBase : String)
    (launcherInfo : Option LauncherInfo) (cfgAppId : String) (fs : FS) (c : CacheState)
    (marker : Option LocalMarker) (target : String) (forceSync : Bool) :
    (∀ i, launcherInfo = some i →
      (checkout manifest resBase launcherInfo cfgAppId fs c marker target
        forceSync).marker = some ⟨i.version, cfgAppId, "default"⟩) ∧
    (launcherInfo = none →
      (checkout manifest resBase launcherInfo cfgAppId fs c marker target
        forceSync).marker = marker) ∧
    ((checkout manifest resBase launcherInfo cfgAppId fs c marker target
        forceSync).syncTriggered = true ↔
      ((∃ f ∈ diffFilesFor target, fs f = none ∧ fs (BAK f) = none) ∨ forceSync = true)) ∧
    ((checkout manifest resBase launcherInfo cfgAppId fs c marker target
        forceSync).syncTriggered = true →
      (checkout manifest resBase launcherInfo cfgAppId fs c marker target
        forceSync).finalSync = some (syncFiles true manifest resBase
          (checkoutFiles target ⟨fs, c⟩).1.fs (checkoutFiles target ⟨fs, c⟩).1.cache)) ∧
    ((checkout manifest resBase launcherInfo cfgAppId fs c marker target
        forceSync).syncTriggered = false →
      (checkout manifest resBase launcherInfo cfgAppId fs c marker target
        forceSync).finalSync = none) := by
  have hm : (checkout manifest resBase launcherInfo cfgAppId fs c marker target
      forceSync).marker = (match launcherInfo with
        | some i => some ⟨i.version, cfgAppId, "default"⟩
        | none => marker) := by
    unfold checkout
    by_cases hbr : ((checkoutFiles target ⟨fs, c⟩).2 || forceSync) = true <;> simp [hbr]
  have hs : (checkout manifest resBase launcherInfo cfgAppId fs c marker target
      forceSync).syncTriggered = ((checkoutFiles target ⟨fs, c⟩).2 || forceSync) := by
    unfold checkout
    by_cases hbr : ((checkoutFiles target ⟨fs, c⟩).2 || forceSync) = true <;> simp [hbr]
  have hf : (checkout manifest resBase launcherInfo cfgAppId fs c marker target
      forceSync).finalSync = (if ((checkoutFiles target ⟨fs, c⟩).2 || forceSync) = true
        then some (syncFiles true manifest resBase
          (checkoutFiles target ⟨fs, c⟩).1.fs (checkoutFiles target ⟨fs, c⟩).1.cache)
        else none) := by
    unfold checkout
    by_cases hbr : ((checkoutFiles target ⟨fs, c⟩).2 || forceSync) = true <;> simp [hbr]
  refine ⟨fun i hi => by rw [hm, hi], fun hi => by rw [hm, hi], ?_, ?_, ?_⟩
  · rw [hs, Bool.or_eq_true, checkoutFiles_missing]
  · intro ht
    rw [hs] at ht
    rw [hf, if_pos ht]
  · intro ht
    rw [hs] at ht
    rw [hf, if_neg (by simp [ht])]

/-- Concrete instantiation of `C7_checkout_marker_and_sync`: with the
launcher configuration fetched the marker is rewritten, and a forced check
triggers the sync pass. -/
theorem C7_checkout_marker_and_sync_witness :
    (checkout [] "rb" (some ⟨"2.1"⟩) "10003" (fun _ => none) ⟨[], false⟩ none "cn"
      true).marker = some ⟨"2.1", "10003", "default"⟩ ∧
    (checkout [] "rb" (some ⟨"2.1"⟩) "10003" (fun _ => none) ⟨[], false⟩ none "cn"
      true).syncTriggered = true :=
  ⟨(C7_checkout_marker_and_sync [] "rb" (some ⟨"2.1"⟩) "10003" (fun _ => none)
      ⟨[], false⟩ none "cn" true).1 ⟨"2.1"⟩ rfl,
    (C7_checkout_marker_and_sync [] "rb" (some ⟨"2.1"⟩) "10003" (fun _ => none)
      ⟨[], false⟩ none "cn" true).2.2.1.mpr (Or.inr rfl)⟩

/-- **C7 counterexample.** The claim says `checkout` updates the
active-variant marker.  Here the launcher configuration was never fetched
(`self._launcher_info is None`), the user switches from `cn` to `global`,
and the marker file still carries the old record afterwards — the
active-variant marker is *not* updated. -/
theorem C7_counterexample :
    (checkout [] "rb" none "10003" (fun _ => none) ⟨[], false⟩
      (some ⟨"0.9", "10003", "default"⟩) "global" false).marker =
        some ⟨"0.9", "10003", "default"⟩ ∧
    (checkout [] "rb" none "10003" (fun _ => none) ⟨[], false⟩
      (some ⟨"0.9", "10003", "default"⟩) "global" false).serverType = "global" := by
  refine ⟨?_, ?_⟩ <;> decide

/-- Both rename passes restore an active two-file override set exactly:
every canonical copy is parked in its backup slot by step 1 and moved back by
step 2. -/
theorem checkoutFiles_active_two (fs : FS) (c : CacheState) (f1 f2 : String)
    (m1 : f1 ∈ allDiffFiles) (m2 : f2 ∈ allDiffFiles)
    (hnb : ∀ g ∈ allDiffFiles, ∀ g' ∈ allDiffFiles, g' ≠ BAK g)
    (h11 : ∀ g ∈ allDiffFiles, BAK f1 ≠ g)
    (h12 : ∀ g ∈ allDiffFiles, g ≠ f1 → BAK f1 ≠ BAK g)
    (h13 : ∀ g ∈ allDiffFiles, f1 ≠ BAK g)
    (h21 : ∀ g ∈ allDiffFiles, BAK f2 ≠ g)
    (h22 : ∀ g ∈ allDiffFiles, g ≠ f2 → BAK f2 ≠ BAK g)
    (h23 : ∀ g ∈ allDiffFiles, f2 ≠ BAK g)
    (hne : f2 ≠ f1) (hb' : f2 ≠ BAK f1) (hc' : BAK f2 ≠ f1) (hd' : BAK f2 ≠ BAK f1)
    (ha1 : (fs f1).isSome = true) (hk1 : fs (BAK f1) = none)
    (ha2 : (fs f2).isSome = true) (hk2 : fs (BAK f2) = none)
    (habs : ∀ g ∈ allDiffFiles, g ≠ f1 → g ≠ f2 → fs g = none) :
    (([f1, f2].foldl enableOne (allDiffFiles.foldl disableOne ⟨fs, c⟩, false)).1.fs = fs) ∧
    (([f1, f2].foldl enableOne (allDiffFiles.foldl disableOne ⟨fs, c⟩, false)).2 = false) := by
  have hD1 : ((allDiffFiles.foldl disableOne ⟨fs, c⟩).fs f1).isSome = false :=
    foldl_disable_canon_absent allDiffFiles ⟨fs, c⟩ f1 h13 (Or.inl m1)
  have hB1 : (allDiffFiles.foldl disableOne ⟨fs, c⟩).fs (BAK f1) = fs f1 := by
    rw [foldl_disable_bak allDiffFiles ⟨fs, c⟩ f1 h11 h12 h13 m1, if_pos ha1]
  have hB2 : (allDiffFiles.foldl disableOne ⟨fs, c⟩).fs (BAK f2) = fs f2 := by
    rw [foldl_disable_bak allDiffFiles ⟨fs, c⟩ f2 h21 h22 h23 m2, if_pos ha2]
  have hE1b : (osReplace (BAK f1) f1 (allDiffFiles.foldl disableOne ⟨fs, c⟩).fs)
      (BAK f2) = fs f2 := by
    rw [osReplace_other (BAK f1) f1 (BAK f2) _ hc' hd', hB2]
  have hfold : ([f1, f2].foldl enableOne
      (allDiffFiles.foldl disableOne ⟨fs, c⟩, false)) =
      enableOne (enableOne (allDiffFiles.foldl disableOne ⟨fs, c⟩, false) f1) f2 := rfl
  have hstep1 : enableOne (allDiffFiles.foldl disableOne ⟨fs, c⟩, false) f1 =
      (⟨osReplace (BAK f1) f1 (allDiffFiles.foldl disableOne ⟨fs, c⟩).fs,
        cacheClear (allDiffFiles.foldl disableOne ⟨fs, c⟩).cache f1⟩, false) :=
    enableOne_restore _ f1
      (by show ((allDiffFiles.foldl disableOne ⟨fs, c⟩).fs (BAK f1)).isSome = true
          rw [hB1]; exact ha1)
  have hstep2 : enableOne
      ((⟨osReplace (BAK f1) f1 (allDiffFiles.foldl disableOne ⟨fs, c⟩).fs,
        cacheClear (allDiffFiles.foldl disableOne ⟨fs, c⟩).cache f1⟩ : ChkSt), false) f2 =
      (⟨osReplace (BAK f2) f2
          (osReplace (BAK f1) f1 (allDiffFiles.foldl disableOne ⟨fs, c⟩).fs),
        cacheClear (cacheClear (allDiffFiles.foldl disableOne ⟨fs, c⟩).cache f1) f2⟩,
        false) :=
    enableOne_restore _ f2
      (by show ((osReplace (BAK f1) f1 (allDiffFiles.foldl disableOne ⟨fs, c⟩).fs)
            (BAK f2)).isSome = true
          rw [hE1b]; exact ha2)
  rw [hfold, hstep1, hstep2]
  refine ⟨funext fun q => ?_, rfl⟩
  show osReplace (BAK f2) f2
      (osReplace (BAK f1) f1 (allDiffFiles.foldl disableOne ⟨fs, c⟩).fs) q = fs q
  by_cases hq1 : q = f1
  · rw [hq1]
    rw [osReplace_other (BAK f2) f2 f1 _ (fun h => hne h.symm) (fun h => h13 f2 m2 h),
      osReplace_dst, hB1]
  by_cases hq2 : q = BAK f1
  · rw [hq2]
    rw [osReplace_other (BAK f2) f2 (BAK f1) _ (fun h => hb' h.symm) (fun h => hd' h.symm),
      osReplace_src (BAK f1) f1 _ (fun h => (BAK_ne_self f1) h.symm), hk1]
  by_cases hq3 : q = f2
  · rw [hq3]
    rw [osReplace_dst, hE1b]
  by_cases hq4 : q = BAK f2
  · rw [hq4]
    rw [osReplace_src (BAK f2) f2 _ (fun h => (BAK_ne_self f2) h.symm), hk2]
  · rw [osReplace_other (BAK f2) f2 q _ hq3 hq4,
      osReplace_other (BAK f1) f1 q _ hq1 hq2]
    apply foldl_disable_frame allDiffFiles ⟨fs, c⟩ q hnb
    intro g hg hgq
    by_cases hgf1 : g = f1
    · subst hgf1
      rcases hgq with h | h
      · exact absurd h hq1
      · exact absurd h hq2
    by_cases hgf2 : g = f2
    · subst hgf2
      rcases hgq with h | h
      · exact absurd h hq3
      · exact absurd h hq4
    · exact habs g hg hgf1 hgf2

theorem not_mem_pair {g a b : String} (h1 : g ≠ a) (h2 : g ≠ b) : g ∉ [a, b] := by
  intro hmem
  rcases List.mem_cons.1 hmem with h | hmem2
  · exact h1 h
  · rcases List.mem_cons.1 hmem2 with h | hmem3
    · exact h2 h
    · exact absurd hmem3 (List.not_mem_nil g)

/-- `checkout`'s rename passes leave an active variant's file tree untouched
and report nothing missing. -/
theorem checkoutFiles_active (target : String) (fs : FS) (c : CacheState)
    (ha : ∀ f ∈ diffFilesFor target, (fs f).isSome = true ∧ fs (BAK f) = none)
    (hb : ∀ g ∈ allDiffFiles, g ∉ diffFilesFor target → fs g = none) :
    ((checkoutFiles target ⟨fs, c⟩).1.fs = fs) ∧
      ((checkoutFiles target ⟨fs, c⟩).2 = false) := by
  by_cases h1 : target = "cn"
  · subst h1
    unfold checkoutFiles
    rw [show diffFilesFor "cn" = [K1, K2] from rfl] at ha ⊢
    exact checkoutFiles_active_two fs c K1 K2 (by decide) (by decide) (by decide)
      (by decide) (by decide) (by decide) (by decide) (by decide) (by decide)
      (by decide) (by decide) (by decide) (by decide)
      (ha K1 (by decide)).1 (ha K1 (by decide)).2 (ha K2 (by decide)).1 (ha K2 (by decide)).2
      (fun g hg hg1 hg2 => hb g hg (not_mem_pair hg1 hg2))
  by_cases h2 : target = "bilibili"
  · subst h2
    unfold checkoutFiles
    rw [show diffFilesFor "bilibili" = [B1, B2] from rfl] at ha ⊢
    exact checkoutFiles_active_two fs c B1 B2 (by decide) (by decide) (by decide)
      (by decide) (by decide) (by decide) (by decide) (by decide) (by decide)
      (by decide) (by decide) (by decide) (by decide)
      (ha B1 (by decide)).1 (ha B1 (by decide)).2 (ha B2 (by decide)).1 (ha B2 (by decide)).2
      (fun g hg hg1 hg2 => hb g hg (not_mem_pair hg1 hg2))
  by_cases h3 : target = "global"
  · subst h3
    unfold checkoutFiles
    rw [show diffFilesFor "global" = [K1, K2] from rfl] at ha ⊢
    exact checkoutFiles_active_two fs c K1 K2 (by decide) (by decide) (by decide)
      (by decide) (by decide) (by decide) (by decide) (by decide) (by decide)
      (by decide) (by decide) (by decide) (by decide)
      (ha K1 (by decide)).1 (ha K1 (by decide)).2 (ha K2 (by decide)).1 (ha K2 (by decide)).2
      (fun g hg hg1 hg2 => hb g hg (not_mem_pair hg1 hg2))
  · unfold checkoutFiles
    rw [diffFilesFor_other target h1 h2 h3] at hb ⊢
    refine ⟨funext fun q => ?_, rfl⟩
    show (allDiffFiles.foldl disableOne ⟨fs, c⟩).fs q = fs q
    exact foldl_disable_frame allDiffFiles ⟨fs, c⟩ q (by decide)
      (fun g hg _ => hb g hg (by simp))

theorem checkout_fs (manifest : List ManifestEntry) (resBase : String)
    (launcherInfo : Option LauncherInfo) (cfgAppId : String) (fs : FS) (c : CacheState)
    (marker : Option LocalMarker) (target : String) (forceSync : Bool) :
    (checkout manifest resBase launcherInfo cfgAppId fs c marker target forceSync).fs =
      (checkoutFiles target ⟨fs, c⟩).1.fs := by
  unfold checkout
  by_cases hbr : ((checkoutFiles target ⟨fs, c⟩).2 || forceSync) = true <;> simp [hbr]

theorem checkout_syncTriggered (manifest : List ManifestEntry) (resBase : String)
    (launcherInfo : Option LauncherInfo) (cfgAppId : String) (fs : FS) (c : CacheState)
    (marker : Option LocalMarker) (target : String) (forceSync : Bool) :
    (checkout manifest resBase launcherInfo cfgAppId fs c marker target
        forceSync).syncTriggered = ((checkoutFiles target ⟨fs, c⟩).2 || forceSync) := by
  unfold checkout
  by_cases hbr : ((checkoutFiles target ⟨fs, c⟩).2 || forceSync) = true <;> simp [hbr]

/-- **C9.** Variant switch is idempotent: with the target variant currently
active (its override files present canonically with no stale backups, and no
other variant's override files present canonically), switching to it twice in
a row leaves the file tree and the backup markers unchanged, and neither
switch triggers a repair sync. -/
theorem C9_checkout_idempotent (manifest : List ManifestEntry) (resBase : String)
    (launcherInfo : Option LauncherInfo) (cfgAppId : String) (fs : FS) (c : CacheState)
    (marker : Option LocalMarker) (target : String)
    (ha : ∀ f ∈ diffFilesFor target, (fs f).isSome = true ∧ fs (BAK f) = none)
    (hb : ∀ g ∈ allDiffFiles, g ∉ diffFilesFor target → fs g = none) :
    ((checkout manifest resBase launcherInfo cfgAppId fs c marker target false).fs = fs) ∧
    ((checkout manifest resBase launcherInfo cfgAppId fs c marker target
      false).syncTriggered = false) ∧
    ((checkout manifest resBase launcherInfo cfgAppId
        (checkout manifest resBase launcherInfo cfgAppId fs c marker target false).fs
        (checkout manifest resBase launcherInfo cfgAppId fs c marker target false).cache
        (checkout manifest resBase launcherInfo cfgAppId fs c marker target false).marker
        target false).fs = fs) ∧
    ((checkout manifest resBase launcherInfo cfgAppId
        (checkout manifest resBase launcherInfo cfgAppId fs c marker target false).fs
        (checkout manifest resBase launcherInfo cfgAppId fs c marker target false).cache
        (checkout manifest resBase launcherInfo cfgAppId fs c marker target false).marker
        target false).syncTriggered = false) := by
  have hact := checkoutFiles_active target fs c ha hb
  have h1 : (checkout manifest resBase launcherInfo cfgAppId fs c marker target
      false).fs = fs := by
    rw [checkout_fs, hact.1]
  have h2 : (checkout manifest resBase launcherInfo cfgAppId fs c marker target
      false).syncTriggered = false := by
    rw [checkout_syncTriggered, hact.2]
    rfl
  refine ⟨h1, h2, ?_, ?_⟩
  · rw [h1]
    have hact2 := checkoutFiles_active target fs
      (checkout manifest resBase launcherInfo cfgAppId fs c marker target false).cache ha hb
    rw [checkout_fs, hact2.1]
  · rw [h1]
    have hact2 := checkoutFiles_active target fs
      (checkout manifest resBase launcherInfo cfgAppId fs c marker target false).cache ha hb
    rw [checkout_syncTriggered, hact2.2]
    rfl

/-- Concrete instantiation of `C9_checkout_idempotent`: the `cn` variant
active, two switches to `cn` leave the tree untouched and never sync. -/
theorem C9_checkout_idempotent_witness :
    ((checkout [] "rb" none "10003"
        (fun p => if p = K1 then some ⟨1, [1]⟩ else if p = K2 then some ⟨2, [2]⟩ else none)
        ⟨[], false⟩ none "cn" false).fs =
      (fun p => if p = K1 then some ⟨1, [1]⟩ else if p = K2 then some ⟨2, [2]⟩ else none)) ∧
    ((checkout [] "rb" none "10003"
        (fun p => if p = K1 then some ⟨1, [1]⟩ else if p = K2 then some ⟨2, [2]⟩ else none)
        ⟨[], false⟩ none "cn" false).syncTriggered = false) :=
  ⟨(C9_checkout_idempotent [] "rb" none "10003"
      (fun p => if p = K1 then some ⟨1, [1]⟩ else if p = K2 then some ⟨2, [2]⟩ else none)
      ⟨[], false⟩ none "cn" (by decide) (by decide)).1,
    (C9_checkout_idempotent [] "rb" none "10003"
      (fun p => if p = K1 then some ⟨1, [1]⟩ else if p = K2 then some ⟨2, [2]⟩ else none)
      ⟨[], false⟩ none "cn" (by decide) (by decide)).2.1⟩

end WW
